import Mathlib

/-!
The stdin distribution and streaming engine of httpheadershell.

A shallow embedding of `stdin.go`, `handle.go` and `context.go`.

* Go `error` values are modelled by `GoError` (sentinels plus `%w` wrapping) and
  `errors.Is` by `errorsIs`.
* Byte slices are modelled by `Slice` (backing array from the slice start plus a
  length), so that `buf[:cap(buf)]` and `buf[:nr]` keep their meaning.
* `copyStdin`, `handleIn`, `handleOut`, the outbound goroutine of `HandleBidir`
  and `ReadStdin` are modelled as functions of the values their environment
  hands them (select outcomes, results of `Write`, `Flush`, `Read` and
  `io.Copy`, answers of the semaphore), producing the ordered list of
  operations they perform and how they end.
* The concurrent behaviour (any number of sessions, the stdin reader, the
  semaphore, the pool, request cancellation, SIGHUP) is modelled by the step
  function `step` on `Sys`; a schedule is a list of `Action`s.
-/

namespace HttpHeaderShell

/-! ## Errors -/

/-- Go `error` values that occur in the program: the sentinels the code compares
against, any other sentinel (`other`), and `fmt.Errorf("msg: %w", inner)`. -/
inductive GoError where
  | eof                                   -- io.EOF
  | errSIGHUP                             -- ErrSIGHUP (handle.go:22)
  | canceled                              -- context.Canceled
  | errNotSupported                       -- http.ErrNotSupported
  | other (code : Nat)                    -- any other error value
  | wrap (msg : String) (inner : GoError) -- fmt.Errorf(msg + ": %w", inner)
  deriving DecidableEq, Repr

/-- Go `errors.Is(err, target)`: walks the `Unwrap` chain of `err` comparing each
link with `target`. -/
def errorsIs : GoError → GoError → Bool
  | .wrap msg inner, target =>
      if GoError.wrap msg inner = target then true else errorsIs inner target
  | e, target => decide (e = target)

/-! ## Byte slices -/

/-- A byte. No arithmetic is done on bytes, only copying. -/
abbrev Byte := Nat

/-- A Go `[]byte` whose pointer is the start of its backing array: `arr` is the
backing array (so `cap = arr.length`) and `len` the slice length. -/
structure Slice where
  arr : List Byte
  len : Nat
  deriving DecidableEq, Repr

/-- Go `cap(s)`. -/
def Slice.cap (s : Slice) : Nat := s.arr.length

/-- The bytes visible through the slice. -/
def Slice.bytes (s : Slice) : List Byte := s.arr.take s.len

/-- Go `make([]byte, n)`. -/
def Slice.make (n : Nat) : Slice := ⟨List.replicate n 0, n⟩

/-- Go `s[:n]`; `none` is the run-time panic for `n > cap(s)`. -/
def Slice.upTo (s : Slice) (n : Nat) : Option Slice :=
  if n ≤ s.cap then some ⟨s.arr, n⟩ else none

/-- A slice holding exactly the given bytes (length = capacity). -/
def Slice.ofBytes (bs : List Byte) : Slice := ⟨bs, bs.length⟩

/-- Constant `bufLen` (stdin.go:28). -/
def bufLen : Nat := 1024

/-! ## Contexts (context.go) -/

/-- A cancellable context as built by `NewContext`: `context.WithCancel` over a
parent that is only ever canceled without a custom cause (the request context of
`net/http`), so its only state is whether it is done. -/
structure Context where
  done : Bool
  deriving DecidableEq, Repr

/-- Function `NewContext` (context.go:22): a child of `parent`, or of the background
context when `parent` is nil. A child of a done parent is done. -/
def NewContext (parent : Option Context) : Context :=
  match parent with
  | none => ⟨false⟩
  | some p => ⟨p.done⟩

/-- Function `Cancel` (context.go:32): calls the stored `context.CancelFunc`. -/
def Cancel (_ctx : Context) : Context := ⟨true⟩

/-- Go `context.Cause(ctx)`: nil while the context is live, `context.Canceled`
once it has been canceled by a plain cancel function. -/
def contextCause (ctx : Context) : Option GoError :=
  if ctx.done then some .canceled else none

/-! ## copyStdin (stdin.go:83) -/

/-- What `w.Write(b)` returned. -/
structure WriteResult where
  n : Nat
  err : Option GoError
  deriving DecidableEq, Repr

/-- One outcome of the `select` in `copyStdin` (stdin.go:101), with the values
the environment hands back in that iteration. -/
inductive SelectEvent where
  -- case <-ctx.Done(): the scope has been canceled
  | ctxDone
  -- case b, ok := <-Stdin with ok: chunk b; w is what w.Write(b) returns and
  -- f what rc.Flush() returns (if it is reached)
  | recv (b : Slice) (w : WriteResult) (f : Option GoError)
  -- case b, ok := <-Stdin with !ok; errp is StdinErr.Load()
  | closed (errp : Option GoError)
  -- case <-hupch
  | hup
  deriving DecidableEq, Repr

/-- Operations on the outside world performed by a session, in program order. -/
inductive Op where
  | tryAcquire (ok : Bool)              -- StdinSem.TryAcquire(1) and its result
  | acquire (err : Option GoError)      -- StdinSem.Acquire(ctx, 1) and its result
  | release                             -- StdinSem.Release(1)
  | cancel                              -- Cancel(ctx)
  | loadStdinErr (errp : Option GoError) -- StdinErr.Load()
  | setHeader (key value : String)      -- w.Header().Set
  | writeHeader (status : Nat)          -- w.WriteHeader
  | notifyHup                           -- signal.Notify(hupch, SIGHUP)
  | stopHup                             -- signal.Stop(hupch)
  | recvChunk (b : Slice)               -- a chunk received from Stdin
  | write (b : List Byte) (n : Nat)     -- w.Write(b), which returned count n
  | returnSlice (b : Slice)             -- returnStdinSlice(b)
  | flush                               -- rc.Flush()
  | panicRelease                        -- panic "semaphore: released more than held"
  | logWaiting                          -- "Waiting to grab stdin"
  | logErrWaiting (err : GoError)       -- "Error waiting to grab stdin: %s"
  | logRefusing (err : GoError)         -- "Refusing stdin connection (stdin error: %s)"
  | logGrabbed                          -- "Grabbed stdin"
  | logEOF (n : Nat)                    -- "EOF on stdin after %d bytes"
  | logSIGHUP (n : Nat)                 -- "Closing stdin on SIGHUP after %d bytes"
  | logEnd (n : Nat)                    -- "End of stdin stream after %d bytes"
  | logUnpossible (n : Nat)             -- "Unpossible error-free stdin copy after %d bytes"
  | logError (n : Nat) (err : GoError)  -- "Error on stdin stream after %d bytes: %s"
  deriving DecidableEq, Repr

/-- How a call ended. -/
inductive Ret where
  -- returned (tot, err); err = none is Go's nil error
  | returned (tot : Nat) (err : Option GoError)
  -- run-time panic (nil pointer dereference of StdinErr.Load())
  | panicked (tot : Nat)
  -- still waiting in the select: the environment offers no further event
  | blocked (tot : Nat)
  deriving DecidableEq, Repr

/-- One received chunk (stdin.go:112-130): write, return the slab, add to the
total, then flush. Gives the operations done, the new total and, when the loop
ends here, the error returned. -/
def copyChunk (tot : Nat) (b : Slice) (w : WriteResult) (f : Option GoError) :
    List Op × Nat × Option GoError :=
  let tot := tot + w.n
  match w.err with
  | some e => ([.recvChunk b, .write b.bytes w.n, .returnSlice b], tot,
               some (.wrap "sending response" e))
  | none =>
    match f with
    | some e =>
      if !errorsIs e .errNotSupported then
        ([.recvChunk b, .write b.bytes w.n, .returnSlice b, .flush], tot,
         some (.wrap "flushing response" e))
      else ([.recvChunk b, .write b.bytes w.n, .returnSlice b, .flush], tot, none)
    | none => ([.recvChunk b, .write b.bytes w.n, .returnSlice b, .flush], tot, none)

/-- The `for { select { ... } }` loop of `copyStdin` (stdin.go:100-134), run
against the list of select outcomes. -/
def copyLoop (tot : Nat) : List SelectEvent → List Op × Ret
  | [] => ([], .blocked tot)
  | .ctxDone :: _ =>
    -- ctx.Done() is closed, so ctx is done when context.Cause(ctx) is evaluated
    ([], .returned tot (contextCause ⟨true⟩))
  | .recv b w f :: rest =>
    match copyChunk tot b w f with
    | (ops, tot, some err) => (ops, .returned tot (some err))
    | (ops, tot, none) =>
      let r := copyLoop tot rest
      (ops ++ r.1, r.2)
  | .closed errp :: _ =>
    match errp with
    | some e => ([], .returned tot (some (.wrap "reading stdin" e)))
    | none => ([], .panicked tot)
  | .hup :: _ => ([], .returned tot (some .errSIGHUP))

/-- The deferred `signal.Stop(hupch)` of `copyStdin`: runs when the function
leaves (return or panic), not while it is still waiting. -/
def deferredStop : Ret → List Op
  | .blocked _ => []
  | _ => [.stopHup]

/-- Function `copyStdin` (stdin.go:83): headers, SIGHUP subscription, the loop,
and the deferred `signal.Stop`. -/
def copyStdin (evs : List SelectEvent) : List Op × Ret :=
  let r := copyLoop 0 evs
  ([.setHeader "Content-Type" "text/event-stream",
    .setHeader "Connection" "keep-alive",
    .writeHeader 200,
    .notifyHup] ++ r.1 ++ deferredStop r.2, r.2)

/-! ## handleIn (handle.go:33) -/

/-- The branch of the `switch` in `handleIn` (handle.go:69-101). -/
inductive Cause where
  | eof | hangup | canceled | unpossible | transport
  deriving DecidableEq, Repr

/-- The `switch` of handle.go:69: the first matching case wins.
`errors.Is(nil, target)` is false for a non-nil target. -/
def classify (err : Option GoError) : Cause :=
  match err with
  | none => .unpossible
  | some e =>
    if errorsIs e .eof then .eof
    else if errorsIs e .errSIGHUP then .hangup
    else if errorsIs e .canceled then .canceled
    else .transport

/-- The log line of each branch of the `switch`. -/
def logFor (n : Nat) (err : Option GoError) : Op :=
  match classify err, err with
  | .eof, _ => .logEOF n
  | .hangup, _ => .logSIGHUP n
  | .canceled, _ => .logEnd n
  | .transport, some e => .logError n e
  | _, _ => .logUnpossible n

/-- What the semaphore answers to one session. `acquire` is only consulted when
`tryOk` is false: `none` means `Acquire` never returns, `some none` that it
acquired, `some (some e)` that it failed with `e = ctx.Err()`. -/
structure GateAnswers where
  tryOk : Bool
  acquire : Option (Option GoError)
  deriving DecidableEq, Repr

/-- How a `handleIn` call ended. -/
inductive Outcome where
  -- never got past StdinSem.Acquire
  | stuckInAcquire
  -- returned at handle.go:59 without calling copyStdin
  | rejected
  -- copyStdin returned (n, err) and the switch took branch c
  | ended (c : Cause) (n : Nat) (err : Option GoError)
  -- copyStdin panicked
  | panicked
  -- copyStdin never returned
  | stuckInCopy
  deriving DecidableEq, Repr

/-- The part of `handleIn` after the semaphore block (handle.go:50-101), with
`waited` as set by the block. The deferred `StdinSem.Release(1)` (line 50) and
`Cancel(ctx)` (line 34) run last, in that order, on every way out. -/
def handleInBody (waited : Bool) (stdinErr : Option GoError)
    (evs : List SelectEvent) : List Op × Outcome :=
  match stdinErr with
  | some e =>
    ([.loadStdinErr (some e), .logRefusing e, .release, .cancel], .rejected)
  | none =>
    let grabbed : List Op := if waited then [.logGrabbed] else []
    let c := copyStdin evs
    match c.2 with
    | .returned n err =>
      ([.loadStdinErr none] ++ grabbed ++ c.1 ++ [logFor n err, .release, .cancel],
       .ended (classify err) n err)
    | .panicked _ =>
      ([.loadStdinErr none] ++ grabbed ++ c.1 ++ [.release, .cancel], .panicked)
    | .blocked _ =>
      ([.loadStdinErr none] ++ grabbed ++ c.1, .stuckInCopy)

/-- Function `handleIn` (handle.go:33). `g` is what the semaphore answers, `stdinErr` is
what `StdinErr.Load()` returns at line 53, `evs` are the select outcomes offered
to `copyStdin`. -/
def handleIn (g : GateAnswers) (stdinErr : Option GoError)
    (evs : List SelectEvent) : List Op × Outcome :=
  if g.tryOk then
    let r := handleInBody false stdinErr evs
    ([.tryAcquire true] ++ r.1, r.2)
  else
    match g.acquire with
    | none => ([.tryAcquire false, .logWaiting], .stuckInAcquire)
    | some none =>
      let r := handleInBody true stdinErr evs
      ([.tryAcquire false, .logWaiting, .acquire none] ++ r.1, r.2)
    | some (some err) =>
      let r := handleInBody true stdinErr evs
      ([.tryAcquire false, .logWaiting, .acquire (some err), .logErrWaiting err, .cancel]
        ++ r.1, r.2)

/-- Number of permits of `StdinSem` the operations acquired. -/
def acquiredCount : List Op → Nat
  | [] => 0
  | .tryAcquire true :: ops => acquiredCount ops + 1
  | .acquire none :: ops => acquiredCount ops + 1
  | _ :: ops => acquiredCount ops

/-- Number of `StdinSem.Release(1)` calls among the operations. -/
def releasedCount : List Op → Nat
  | [] => 0
  | .release :: ops => releasedCount ops + 1
  | _ :: ops => releasedCount ops

/-- The byte strings passed to `w.Write`, in order. -/
def writesOf : List Op → List (List Byte)
  | [] => []
  | .write b _ :: ops => b :: writesOf ops
  | _ :: ops => writesOf ops

/-- Sum of the byte counts returned by the `w.Write` calls. -/
def writtenCount : List Op → Nat
  | [] => 0
  | .write _ n :: ops => n + writtenCount ops
  | _ :: ops => writtenCount ops

/-- Whether the operation touches the response, the SIGHUP subscription or the
Stdin channel, i.e. whether it is part of `copyStdin`. -/
def Op.isStreaming : Op → Bool
  | .setHeader _ _ | .writeHeader _ | .notifyHup | .stopHup
  | .recvChunk _ | .write _ _ | .returnSlice _ | .flush => true
  | _ => false

/-! ## handleOut and the outbound leg of HandleBidir (handle.go:116-159) -/

/-- What `io.Copy(w, r.Body)` returned in `handleOut`: bytes copied and the
error; `err = none` when the request body ended, otherwise the read or write
error that stopped the copy. -/
structure CopyResult where
  nw : Nat
  err : Option GoError
  deriving DecidableEq, Repr

/-- The log line of `handleOut`. -/
inductive OutLog where
  | errorOnStream (nw : Nat) (err : GoError)  -- "Error on %s stream after %d bytes: %s"
  | endOfStream (nw : Nat)                    -- "End of %s stream after %d bytes"
  deriving DecidableEq, Repr

/-- Function `handleOut` (handle.go:133): the copy, then the deferred log. -/
def handleOut (c : CopyResult) : OutLog :=
  match c.err with
  | some e => if !errorsIs e .eof then .errorOnStream c.nw e else .endOfStream c.nw
  | none => .endOfStream c.nw

/-- The goroutine of `HandleBidir` (handle.go:125-128): `handleOut`, then the
deferred `Cancel(ctx)`. -/
def bidirOutLeg (ctx : Context) (c : CopyResult) : OutLog × Context :=
  (handleOut c, Cancel ctx)

/-! ## ReadStdin (stdin.go:54) as a function of what it reads -/

/-- What one `os.Stdin.Read(buf)` returns: the `nr = data.length` bytes it put at
the start of `buf`, and the error. -/
structure ReadResult where
  data : List Byte
  err : Option GoError
  deriving DecidableEq, Repr

/-- Go `stdinPool.Get()` followed by `buf = buf[:cap(buf)]` (stdin.go:58-59). The
pool hands out entry `pick` and forgets it, or calls `New` (stdin.go:47) when
`pick` is `none` or names no entry. -/
def poolGet (pool : List Slice) (pick : Option Nat) : Slice × List Slice :=
  match pick with
  | none => (⟨(Slice.make bufLen).arr, (Slice.make bufLen).cap⟩, pool)
  | some i =>
    match pool[i]? with
    | some b => (⟨b.arr, b.cap⟩, pool.eraseIdx i)
    | none => (⟨(Slice.make bufLen).arr, (Slice.make bufLen).cap⟩, pool)

/-- Function `returnStdinSlice` (stdin.go:79): `stdinPool.Put(&s)`. -/
def returnStdinSlice (pool : List Slice) (s : Slice) : List Slice := pool ++ [s]

/-- The buffer after `Read` stored `data` at its start (never beyond its
capacity). -/
def fill (buf : Slice) (data : List Byte) : Slice :=
  ⟨(data ++ buf.arr.drop data.length).take buf.cap, buf.len⟩

/-- What the environment does around one iteration of the loop of `ReadStdin`:
`puts` are the chunks published so far (by position) that consumers hand back
with `returnStdinSlice` before this iteration's `Get`; `pick` is the pool's
choice; `read` is what `os.Stdin.Read` returns for a buffer of the given
length. -/
structure ReadTurn where
  puts : List Nat
  pick : Option Nat
  read : Nat → ReadResult

/-- Operations of `ReadStdin`, in program order. -/
inductive BOp where
  | read (buflen : Nat)      -- os.Stdin.Read(buf) with len(buf) = buflen
  | send (chunk : Slice)     -- Stdin <- buf[:nr]
  | logReadError (err : GoError) -- "Error reading stdin: %s"
  | store (err : GoError)    -- StdinErr.Store(&err)
  | close                    -- close(Stdin), deferred
  deriving DecidableEq, Repr

/-- How `ReadStdin` stands after the given turns. -/
inductive BEnd where
  | stopped (err : GoError)  -- returned after storing err
  | panicked                 -- buf[:nr] out of range
  | reading                  -- still in the loop
  deriving DecidableEq, Repr

/-- The tail of an iteration (stdin.go:68-74): store the error and return, which
runs the deferred close. -/
def storeAndClose (e : GoError) : List BOp :=
  (if !errorsIs e .eof then [.logReadError e] else []) ++ [.store e, .close]

/-- The loop of `ReadStdin` (stdin.go:56-75) with its deferred `close(Stdin)`.
`pool` is the content of `stdinPool`, `sent` the chunks published so far. -/
def ReadStdinLoop (pool sent : List Slice) : List ReadTurn → List BOp × BEnd
  | [] => ([], .reading)
  | t :: rest =>
    let pool := (t.puts.filterMap (fun i => sent[i]?)).foldl returnStdinSlice pool
    let g := poolGet pool t.pick
    let buf := g.1
    let r := t.read buf.len
    let nr := r.data.length
    let buf := fill buf r.data
    if nr ≠ 0 then
      match buf.upTo nr with
      | none => ([.read buf.len, .close], .panicked)
      | some chunk =>
        match r.err with
        | some e => ([.read buf.len, .send chunk] ++ storeAndClose e, .stopped e)
        | none =>
          let k := ReadStdinLoop g.2 (sent ++ [chunk]) rest
          ([.read buf.len, .send chunk] ++ k.1, k.2)
    else
      match r.err with
      | some e => ([.read buf.len] ++ storeAndClose e, .stopped e)
      | none =>
        let k := ReadStdinLoop g.2 sent rest
        ([.read buf.len] ++ k.1, k.2)

/-- Function `ReadStdin` (stdin.go:54), started once with an empty pool. -/
def ReadStdin (turns : List ReadTurn) : List BOp × BEnd :=
  ReadStdinLoop [] [] turns

/-- What an observer of the Stdin channel and of the reads sees of an
operation: a chunk is seen as its bytes. -/
inductive BView where
  | read (buflen : Nat)
  | publish (bytes : List Byte)
  | logReadError (err : GoError)
  | store (err : GoError)
  | close
  deriving DecidableEq, Repr

/-- The observer's view of an operation of `ReadStdin`. -/
def BOp.view : BOp → BView
  | .read n => .read n
  | .send c => .publish c.bytes
  | .logReadError e => .logReadError e
  | .store e => .store e
  | .close => .close

/-- The reader keeps the `io.Reader` contract: it returns at most `len(buf)`
bytes. -/
def ReadTurn.obeysReader (t : ReadTurn) : Prop :=
  ∀ n, (t.read n).data.length ≤ n

/-- The behaviour of the stdin reader in the words of the specification: every
read is given a 1024-byte buffer; a read that returned bytes publishes exactly
those bytes, a read returning none publishes nothing; the first read error is
stored after that, the channel is closed and the reader ends. -/
def specReadStdin : List ReadTurn → List BView
  | [] => []
  | t :: rest =>
    let r := t.read 1024
    [.read 1024] ++ (if r.data = [] then [] else [.publish r.data]) ++
      (match r.err with
       | some e => (if errorsIs e .eof then [] else [.logReadError e]) ++ [.store e, .close]
       | none => specReadStdin rest)

/-! ## The semaphore StdinSem (stdin.go:42)

`golang.org/x/sync/semaphore.Weighted` is a library; it is modelled after its
implementation for weight-1 requests: a counter of held permits and a FIFO of
blocked `Acquire` calls. -/

/-- State of a `semaphore.Weighted`: `waiters` are the sessions blocked in
`Acquire(ctx, 1)`, oldest first. -/
structure Weighted where
  size : Int
  cur : Int
  waiters : List Nat
  deriving DecidableEq, Repr

/-- Go `semaphore.NewWeighted(n)`. -/
def NewWeighted (n : Int) : Weighted := ⟨n, 0, []⟩

/-- Go `s.TryAcquire(1)`: succeeds iff a permit is free and nobody is queued. -/
def Weighted.TryAcquire (s : Weighted) : Weighted × Bool :=
  if s.size - s.cur ≥ 1 ∧ s.waiters = [] then ({ s with cur := s.cur + 1 }, true)
  else (s, false)

/-- The loop of `notifyWaiters`: hand permits to the oldest waiters while one is
free. Gives the new counter, the waiters left and the sessions woken. -/
def notifyLoop (size : Int) : Int → List Nat → Int × List Nat × List Nat
  | cur, [] => (cur, [], [])
  | cur, w :: ws =>
    if size - cur < 1 then (cur, w :: ws, [])
    else
      let r := notifyLoop size (cur + 1) ws
      (r.1, r.2.1, w :: r.2.2)

/-- Go `s.Release(1)`. Gives the new state, the sessions woken, and whether the
call panicked ("semaphore: released more than held"); the counter has already
been decremented when it panics. -/
def Weighted.Release (s : Weighted) : Weighted × List Nat × Bool :=
  let cur := s.cur - 1
  if cur < 0 then ({ s with cur := cur }, [], true)
  else
    let r := notifyLoop s.size cur s.waiters
    ({ s with cur := r.1, waiters := r.2.1 }, r.2.2, false)

/-- The entry of Go `s.Acquire(ctx, 1)` for session `i`: take a free permit at
once (true), or queue as a waiter and block (false). -/
def Weighted.AcquireEnter (s : Weighted) (i : Nat) : Weighted × Bool :=
  if s.size - s.cur ≥ 1 ∧ s.waiters = [] then ({ s with cur := s.cur + 1 }, true)
  else ({ s with waiters := s.waiters ++ [i] }, false)

/-- A blocked `s.Acquire(ctx, 1)` of session `i` whose context is done: it leaves
the queue and returns `ctx.Err()`; if it was the oldest waiter and permits are
free, the next waiters are notified. Gives the new state and the sessions
woken. -/
def Weighted.AcquireCancel (s : Weighted) (i : Nat) : Weighted × List Nat :=
  let isFront := s.waiters.head? = some i
  let ws := s.waiters.erase i
  if isFront ∧ s.size > s.cur then
    let r := notifyLoop s.size s.cur ws
    ({ s with cur := r.1, waiters := r.2.1 }, r.2.2)
  else ({ s with waiters := ws }, [])

/-! ## The whole process as a transition system -/

/-- Where the goroutine running `ReadStdin` stands. -/
inductive BPC where
  | getBuf                                        -- stdin.go:58, top of the loop
  | reading (buf : Slice)                         -- stdin.go:62, in os.Stdin.Read(buf)
  | sending (chunk : Slice) (err : Option GoError) -- stdin.go:64, blocked in Stdin <- buf[:nr]
  | afterSend (err : Option GoError)              -- stdin.go:68, about to test err
  | closing (err : GoError)                       -- stdin.go:73, err stored; deferred close pending
  | stopped (err : GoError)                       -- ReadStdin has returned; err was its read error
  deriving DecidableEq, Repr

/-- Where a session running `handleIn` stands. -/
inductive PC where
  | start                 -- handle.go:38, about to call StdinSem.TryAcquire(1)
  | acquireCall           -- handle.go:41, about to call StdinSem.Acquire(ctx, 1)
  | waiting               -- blocked inside Acquire, queued
  | woken                 -- inside Acquire, a Release handed it the permit
  | body                  -- handle.go:50, semaphore block left
  | streaming             -- inside copyStdin, at the select (stdin.go:101)
  | leaving (o : Outcome) -- returning from handleIn: deferred calls pending
  | done (o : Outcome)    -- handleIn has returned
  deriving DecidableEq, Repr

/-- A connection being served by `handleIn`. -/
structure Session where
  pc : PC
  ctx : Context
  outRunning : Bool  -- the handleOut goroutine of HandleBidir is running
  waited : Bool
  tot : Nat
  hup : Nat          -- signals queued on hupch (capacity 2)
  ops : List Op      -- operations performed so far, in order
  deriving DecidableEq, Repr

/-- The state of the process. -/
structure Sys where
  sem : Weighted                 -- StdinSem
  stdinErr : Option GoError      -- StdinErr
  stdinClosed : Bool             -- whether the channel Stdin is closed
  pool : List Slice              -- stdinPool
  bpc : BPC                      -- the ReadStdin goroutine
  sessions : List Session
  deriving DecidableEq, Repr

/-- The process right after `go ReadStdin()` (httpheadershell.go:149). -/
def Sys.init : Sys := ⟨NewWeighted 1, none, false, [], .getBuf, []⟩

/-- Which case the `select` of `copyStdin` takes. -/
inductive Pick where
  | ctxDone
  | recv (w : WriteResult) (f : Option GoError)
  | closed
  | hup
  deriving DecidableEq, Repr

/-- The atomic steps of the process. -/
inductive Action where
  | connect                       -- HandleIn is called for a new request
  | connectBidir                  -- HandleBidir is called for a new request
  | cancelRequest (i : Nat)       -- the request context of session i is canceled
  | outboundDone (i : Nat) (c : CopyResult) -- handleOut of bidirectional session i returns
  | sighup                        -- the process receives SIGHUP
  | poolGet (pick : Option Nat)   -- ReadStdin: stdin.go:58-59
  | read (r : ReadResult)         -- ReadStdin: os.Stdin.Read returns
  | afterSend                     -- ReadStdin: stdin.go:68-74
  | closeStdin                    -- ReadStdin: deferred close(Stdin)
  | tryAcquire (i : Nat)          -- session i: handle.go:38
  | acquire (i : Nat)             -- session i: enters Acquire
  | acquireReturn (i : Nat)       -- session i: Acquire returns nil
  | acquireCanceled (i : Nat)     -- session i: Acquire returns ctx.Err()
  | loadStdinErr (i : Nat)        -- session i: handle.go:50-68, up to the select
  | select (i : Nat) (p : Pick)   -- session i: one round of the select
  | leave (i : Nat)               -- session i: deferred Release and Cancel
  deriving DecidableEq, Repr

/-- A fresh session with the given context. -/
def Session.new (ctx : Context) (bidir : Bool) : Session :=
  ⟨.start, ctx, bidir, false, 0, 0, []⟩

/-- Mark the sessions a `Release` handed a permit to. -/
def wake (woken : List Nat) (ss : List Session) : List Session :=
  woken.foldl (fun ss j =>
    match ss[j]? with
    | some t => ss.set j ({ t with pc := .woken })
    | none => ss) ss

/-- Delivery of SIGHUP to a session: queued on `hupch` (capacity 2) while the
session is subscribed, i.e. inside `copyStdin`. -/
def deliverHup (t : Session) : Session :=
  if t.pc = .streaming then { t with hup := min 2 (t.hup + 1) } else t

/-- The outcome with which `handleIn` leaves after `copyStdin` ended as `r`, and
the log line written. -/
def endOfCopy (r : Ret) : Outcome × List Op :=
  match r with
  | .returned n err => (.ended (classify err) n err, [.stopHup, logFor n err])
  | .panicked _ => (.panicked, [.stopHup])
  | .blocked _ => (.stuckInCopy, [])

/-- One round of the `select` of session `t` (stdin.go:101-133) in state `s`.
A case can only be taken when it is ready. -/
def selectStep (s : Sys) (i : Nat) (t : Session) (p : Pick) : Option Sys :=
  match p with
  | .ctxDone =>
    if t.ctx.done then
      let e := endOfCopy (.returned t.tot (contextCause t.ctx))
      some { s with
        sessions := s.sessions.set i
            ({ t with pc := .leaving e.1, hup := 0, ops := t.ops ++ e.2 }) }
    else none
  | .recv w f =>
    match s.bpc with
    | .sending b err =>
      let c := copyChunk t.tot b w f
      let t1 := { t with tot := c.2.1, ops := t.ops ++ c.1 }
      let t2 :=
        match c.2.2 with
        | some e =>
          let o := endOfCopy (.returned c.2.1 (some e))
          { t1 with pc := .leaving o.1, hup := 0, ops := t1.ops ++ o.2 }
        | none => t1
      some { s with
        bpc := .afterSend err, pool := returnStdinSlice s.pool b,
                        sessions := s.sessions.set i t2 }
    | _ => none
  | .closed =>
    if s.stdinClosed then
      let r : Ret :=
        match s.stdinErr with
        | some e => .returned t.tot (some (.wrap "reading stdin" e))
        | none => .panicked t.tot
      let o := endOfCopy r
      some { s with
        sessions := s.sessions.set i
            ({ t with pc := .leaving o.1, hup := 0, ops := t.ops ++ o.2 }) }
    else none
  | .hup =>
    if 0 < t.hup then
      let o := endOfCopy (.returned t.tot (some .errSIGHUP))
      some { s with
        sessions := s.sessions.set i
            ({ t with pc := .leaving o.1, hup := 0, ops := t.ops ++ o.2 }) }
    else none

/-- One step of the goroutine running `ReadStdin`. -/
def readerStep (s : Sys) : Action → Option Sys
  | .poolGet pick =>
    match s.bpc with
    | .getBuf =>
      let g := poolGet s.pool pick
      some { s with bpc := .reading g.1, pool := g.2 }
    | _ => none
  | .read r =>
    match s.bpc with
    | .reading buf =>
      -- os.Stdin.Read returns at most len(buf) bytes
      if r.data.length ≤ buf.len then
        if r.data.length ≠ 0 then
          match (fill buf r.data).upTo r.data.length with
          | some chunk => some { s with bpc := .sending chunk r.err }
          | none => none
        else some { s with bpc := .afterSend r.err }
      else none
    | _ => none
  | .afterSend =>
    match s.bpc with
    | .afterSend (some e) => some { s with stdinErr := some e, bpc := .closing e }
    | .afterSend none => some { s with bpc := .getBuf }
    | _ => none
  | .closeStdin =>
    match s.bpc with
    | .closing e => some { s with stdinClosed := true, bpc := .stopped e }
    | _ => none
  | _ => none

/-- One step of session `i`, which is in state `t`. -/
def sessionStep (s : Sys) (i : Nat) (t : Session) : Action → Option Sys
  | .tryAcquire _ =>
    match t.pc with
    | .start =>
      let r := s.sem.TryAcquire
      if r.2 then
        some { s with
          sem := r.1, sessions := s.sessions.set i
              ({ t with pc := .body, ops := t.ops ++ [.tryAcquire true] }) }
      else
        some { s with
          sem := r.1, sessions := s.sessions.set i
              ({ t with pc := .acquireCall, waited := true, ops := t.ops ++ [.tryAcquire false, .logWaiting] }) }
    | _ => none
  | .acquire _ =>
    match t.pc with
    | .acquireCall =>
      let r := s.sem.AcquireEnter i
      if r.2 then
        some { s with
          sem := r.1, sessions := s.sessions.set i
              ({ t with pc := .body, ops := t.ops ++ [.acquire none] }) }
      else
        some { s with sem := r.1, sessions := s.sessions.set i ({ t with pc := .waiting }) }
    | _ => none
  | .acquireReturn _ =>
    match t.pc with
    | .woken =>
      some { s with
        sessions := s.sessions.set i
            ({ t with pc := .body, ops := t.ops ++ [.acquire none] }) }
    | _ => none
  | .acquireCanceled _ =>
    match t.pc with
    | .waiting =>
      if t.ctx.done then
        let r := s.sem.AcquireCancel i
        -- handle.go:41-48: log, Cancel(ctx), and fall through to line 50
        some { s with
          sem := r.1, sessions := wake r.2 (s.sessions.set i
              ({ t with pc := .body, ctx := Cancel t.ctx, ops := t.ops ++ [.acquire (some .canceled), .logErrWaiting .canceled, .cancel] })) }
      else none
    | _ => none
  | .loadStdinErr _ =>
    match t.pc with
    | .body =>
      match s.stdinErr with
      | some e =>
        some { s with
          sessions := s.sessions.set i
              ({ t with pc := .leaving .rejected, ops := t.ops ++ [.loadStdinErr (some e), .logRefusing e] }) }
      | none =>
        some { s with
          sessions := s.sessions.set i
              ({ t with pc := .streaming, tot := 0, hup := 0, ops := t.ops ++ [.loadStdinErr none] ++ (if t.waited then [.logGrabbed] else []) ++ [.setHeader "Content-Type" "text/event-stream", .setHeader "Connection" "keep-alive", .writeHeader 200, .notifyHup] }) }
    | _ => none
  | .select _ p =>
    match t.pc with
    | .streaming => selectStep s i t p
    | _ => none
  | .leave _ =>
    match t.pc with
    | .leaving o =>
      let r := s.sem.Release
      some { s with
        sem := r.1, sessions := wake r.2.1 (s.sessions.set i
            ({ t with pc := .done o, ctx := Cancel t.ctx, ops := t.ops ++ [.release] ++ (if r.2.2 then [.panicRelease] else []) ++ [.cancel] })) }
    | _ => none
  | _ => none

/-- The session an action belongs to, if any. -/
def Action.session : Action → Option Nat
  | .tryAcquire i | .acquire i | .acquireReturn i | .acquireCanceled i
  | .loadStdinErr i | .select i _ | .leave i => some i
  | _ => none

/-- One atomic step of the process; `none` when the action is not enabled. -/
def step (s : Sys) (a : Action) : Option Sys :=
  match a with
  | .connect =>
    some { s with sessions := s.sessions ++ [Session.new (NewContext (some ⟨false⟩)) false] }
  | .connectBidir =>
    some { s with sessions := s.sessions ++ [Session.new (NewContext (some ⟨false⟩)) true] }
  | .cancelRequest i =>
    match s.sessions[i]? with
    | some t => some { s with sessions := s.sessions.set i ({ t with ctx := ⟨true⟩ }) }
    | none => none
  | .outboundDone i c =>
    match s.sessions[i]? with
    | some t =>
      if t.outRunning then
        some { s with
          sessions := s.sessions.set i
              ({ t with ctx := (bidirOutLeg t.ctx c).2, outRunning := false }) }
      else none
    | none => none
  | .sighup =>
    -- with no channel subscribed by signal.Notify the default action ends the process
    if s.sessions.any (fun t => decide (t.pc = .streaming)) then
      some { s with sessions := s.sessions.map deliverHup }
    else none
  | .poolGet _ | .read _ | .afterSend | .closeStdin => readerStep s a
  | .tryAcquire i | .acquire i | .acquireReturn i | .acquireCanceled i
  | .loadStdinErr i | .select i _ | .leave i =>
    match s.sessions[i]? with
    | some t => sessionStep s i t a
    | none => none

/-- Run a schedule: a sequence of atomic steps. -/
def run (s : Sys) : List Action → Option Sys
  | [] => some s
  | a :: as =>
    match step s a with
    | some s1 => run s1 as
    | none => none

/-- The states the process can reach from its start. -/
def Reachable (s : Sys) : Prop := ∃ as, run Sys.init as = some s

/-- Number of sessions inside `copyStdin`. -/
def streamingCount (s : Sys) : Nat :=
  (s.sessions.filter (fun t => decide (t.pc = .streaming))).length

/-- The operations performed by session `i`. -/
def opsOf (s : Sys) (i : Nat) : List Op :=
  match s.sessions[i]? with
  | some t => t.ops
  | none => []

/-- The program point of session `i`. -/
def pcOf (s : Sys) (i : Nat) : Option PC := (s.sessions[i]?).map (fun t => t.pc)

/-! ## Auxiliary definitions for the statements -/

/-- A select outcome after which the loop of `copyStdin` goes round again: a
chunk whose `Write` reported no error and whose `Flush` succeeded or reported
`ErrNotSupported`. -/
def SelectEvent.continues : SelectEvent → Bool
  | .recv _ w f =>
    w.err.isNone && (match f with
      | none => true
      | some e => errorsIs e .errNotSupported)
  | _ => false

/-- The byte count `Write` returned in a select outcome. -/
def SelectEvent.count : SelectEvent → Nat
  | .recv _ w _ => w.n
  | _ => 0

/-- The operations of a round that goes round again. -/
def SelectEvent.chunkOps : SelectEvent → List Op
  | .recv b w _ => [.recvChunk b, .write b.bytes w.n, .returnSlice b, .flush]
  | _ => []

/-- The gate call of `handleIn` returns: `TryAcquire` succeeds or `Acquire`
returns. -/
def GateAnswers.returns (g : GateAnswers) : Bool :=
  g.tryOk || g.acquire.isSome

/-- The session got a permit: `TryAcquire` succeeded or `Acquire` returned nil. -/
def GateAnswers.acquired (g : GateAnswers) : Bool :=
  g.tryOk || decide (g.acquire = some none)

/-- The reader's program point agrees with the shared stdin state: `StdinErr`
is unset and the channel open until the reader has stored its read error;
between the store and the deferred close `StdinErr` holds that error and the
channel is still open; after the close `StdinErr` still holds it. -/
def ReaderInv (s : Sys) : Prop :=
  match s.bpc with
  | .closing e => s.stdinErr = some e ∧ s.stdinClosed = false
  | .stopped e => s.stdinErr = some e ∧ s.stdinClosed = true
  | _ => s.stdinErr = none ∧ s.stdinClosed = false

/-- The reader has not stored an error yet. -/
def BPC.running : BPC → Bool
  | .closing _ | .stopped _ => false
  | _ => true

/-- The first chunk of Scenario A in its 1024-byte slab. -/
def helloChunk : Slice := ⟨[104, 101, 108, 108, 111, 10] ++ List.replicate 1018 0, 6⟩

/-- The process after one session has relayed `helloChunk` and a SIGHUP has been
delivered to it. -/
def hupState : Sys :=
  { sem := ⟨1, 1, []⟩, stdinErr := none, stdinClosed := false, pool := [helloChunk],
    bpc := .getBuf,
    sessions := [⟨.streaming, ⟨false⟩, false, false, 6, 1,
      [.tryAcquire true, .loadStdinErr none,
       .setHeader "Content-Type" "text/event-stream", .setHeader "Connection" "keep-alive",
       .writeHeader 200, .notifyHup,
       .recvChunk helloChunk, .write [104, 101, 108, 108, 111, 10] 6, .returnSlice helloChunk,
       .flush]⟩] }

/-- The process after a bidirectional session has entered `copyStdin` while its
outbound goroutine is still copying the request body. -/
def bidirState : Sys :=
  { sem := ⟨1, 1, []⟩, stdinErr := none, stdinClosed := false, pool := [], bpc := .getBuf,
    sessions := [⟨.streaming, ⟨false⟩, true, false, 0, 0,
      [.tryAcquire true, .loadStdinErr none,
       .setHeader "Content-Type" "text/event-stream", .setHeader "Connection" "keep-alive",
       .writeHeader 200, .notifyHup]⟩] }

/-- The process after the select of the bidirectional session of `bidirState`
has taken a SIGHUP: `copyStdin` has returned, the deferred calls of `handleIn`
are pending, and the shared scope is still live. -/
def bidirHupState : Sys :=
  { sem := ⟨1, 1, []⟩, stdinErr := none, stdinClosed := false, pool := [], bpc := .getBuf,
    sessions := [⟨.leaving (.ended .hangup 0 (some .errSIGHUP)), ⟨false⟩, true, false, 0, 0,
      [.tryAcquire true, .loadStdinErr none,
       .setHeader "Content-Type" "text/event-stream", .setHeader "Connection" "keep-alive",
       .writeHeader 200, .notifyHup, .stopHup, .logSIGHUP 0]⟩] }

/-- The semaphore is the one built by `NewWeighted(1)` and never holds more
permits than its size. -/
def SemInv (s : Sys) : Prop := s.sem.size = 1 ∧ s.sem.cur ≤ 1

/-- The process after stdin has ended while one session is streaming. -/
def eofState : Sys :=
  { sem := ⟨1, 1, []⟩, stdinErr := some .eof, stdinClosed := true, pool := [],
    bpc := .stopped .eof,
    sessions := [⟨.streaming, ⟨false⟩, false, false, 0, 0,
      [.tryAcquire true, .loadStdinErr none,
       .setHeader "Content-Type" "text/event-stream", .setHeader "Connection" "keep-alive",
       .writeHeader 200, .notifyHup]⟩] }

/-- Every slab in the list has capacity 1024 (`bufLen`). -/
def Caps (l : List Slice) : Prop := ∀ b ∈ l, b.cap = 1024

/-- Scenario A for the reader: the first read returns "hello\n" into a fresh
slab, the second read gets the same slab back from the pool (returned with
length 6) and returns 0 bytes with `io.EOF`. -/
def helloTurns : List ReadTurn :=
  [⟨[], none, fun n => ⟨[104, 101, 108, 108, 111, 10].take n, none⟩⟩,
   ⟨[0], some 0, fun _ => ⟨[], some .eof⟩⟩]

/-- The rounds of a list of chunks each written in full, with the given flush
results. -/
def fullRounds (cs : List (Slice × Option GoError)) : List SelectEvent :=
  cs.map (fun c => SelectEvent.recv c.1 ⟨c.1.len, none⟩ c.2)

/-! ## Lemmas -/

theorem errorsIs_wrap_eof (m : String) (e : GoError) :
    errorsIs (.wrap m e) .eof = errorsIs e .eof := by
  simp [errorsIs]

theorem errorsIs_wrap_errSIGHUP (m : String) (e : GoError) :
    errorsIs (.wrap m e) .errSIGHUP = errorsIs e .errSIGHUP := by
  simp [errorsIs]

theorem errorsIs_wrap_canceled (m : String) (e : GoError) :
    errorsIs (.wrap m e) .canceled = errorsIs e .canceled := by
  simp [errorsIs]

theorem classify_wrap (m : String) (e : GoError) :
    classify (some (.wrap m e)) = classify (some e) := by
  simp [classify, errorsIs_wrap_eof, errorsIs_wrap_errSIGHUP, errorsIs_wrap_canceled]

theorem copyChunk_continues (tot : Nat) (b : Slice) (w : WriteResult) (f : Option GoError)
    (h : (SelectEvent.recv b w f).continues = true) :
    copyChunk tot b w f = ((SelectEvent.recv b w f).chunkOps, tot + w.n, none) := by
  obtain ⟨n, werr⟩ := w
  cases werr with
  | some e => simp [SelectEvent.continues] at h
  | none =>
    cases f with
    | none => simp [copyChunk, SelectEvent.chunkOps]
    | some e =>
      have he : errorsIs e .errNotSupported = true := by
        simpa [SelectEvent.continues] using h
      simp [copyChunk, SelectEvent.chunkOps, he]

/-- Rounds that go round again only add their operations and byte counts. -/
theorem copyLoop_append (pre : List SelectEvent) (h : ∀ e ∈ pre, e.continues = true) :
    ∀ (tot : Nat) (rest : List SelectEvent),
      copyLoop tot (pre ++ rest) =
        ((pre.map SelectEvent.chunkOps).flatten
            ++ (copyLoop (tot + (pre.map SelectEvent.count).sum) rest).1,
         (copyLoop (tot + (pre.map SelectEvent.count).sum) rest).2) := by
  induction pre with
  | nil => intro tot rest; simp
  | cons e pre ih =>
    intro tot rest
    have he := h e (List.mem_cons_self _ _)
    have hpre : ∀ x ∈ pre, x.continues = true := fun x hx => h x (List.mem_cons_of_mem _ hx)
    cases e with
    | ctxDone => simp [SelectEvent.continues] at he
    | closed errp => simp [SelectEvent.continues] at he
    | hup => simp [SelectEvent.continues] at he
    | recv b w f =>
      have hc := copyChunk_continues tot b w f he
      simp only [List.cons_append, copyLoop, hc, List.append_eq, ih hpre (tot + w.n) rest,
        List.map_cons, List.flatten_cons, List.sum_cons, SelectEvent.count, List.append_assoc,
        Nat.add_assoc]

/-- The outcome of `handleIn` once past the gate with stdin alive is decided by
how `copyStdin` ended. -/
theorem handleIn_outcome (g : GateAnswers) (evs : List SelectEvent) (h : g.returns = true) :
    (handleIn g none evs).2 =
      (match (copyStdin evs).2 with
       | .returned n err => .ended (classify err) n err
       | .panicked _ => .panicked
       | .blocked _ => .stuckInCopy) := by
  obtain ⟨tryOk, acq⟩ := g
  cases tryOk with
  | true => cases hc : (copyStdin evs).2 <;> simp [handleIn, handleInBody, hc]
  | false =>
    cases acq with
    | none => simp [GateAnswers.returns] at h
    | some a =>
      cases a with
      | none => cases hc : (copyStdin evs).2 <;> simp [handleIn, handleInBody, hc]
      | some e => cases hc : (copyStdin evs).2 <;> simp [handleIn, handleInBody, hc]

/-- The line `handleIn` logs when `copyStdin` returns. -/
theorem handleIn_logs (g : GateAnswers) (evs : List SelectEvent) (h : g.returns = true)
    (n : Nat) (err : Option GoError) (hr : (copyStdin evs).2 = .returned n err) :
    logFor n err ∈ (handleIn g none evs).1 := by
  obtain ⟨tryOk, acq⟩ := g
  cases tryOk with
  | true => simp [handleIn, handleInBody, hr]
  | false =>
    cases acq with
    | none => simp [GateAnswers.returns] at h
    | some a =>
      cases a with
      | none => simp [handleIn, handleInBody, hr]
      | some e => simp [handleIn, handleInBody, hr]

theorem writesOf_append (xs ys : List Op) : writesOf (xs ++ ys) = writesOf xs ++ writesOf ys := by
  induction xs with
  | nil => simp [writesOf]
  | cons x xs ih => cases x <;> simp [writesOf, ih]

theorem writtenCount_append (xs ys : List Op) :
    writtenCount (xs ++ ys) = writtenCount xs + writtenCount ys := by
  induction xs with
  | nil => simp [writtenCount]
  | cons x xs ih => cases x <;> simp [writtenCount, ih, Nat.add_assoc]

theorem writtenCount_chunkOps (pre : List SelectEvent) (h : ∀ e ∈ pre, e.continues = true) :
    writtenCount (pre.map SelectEvent.chunkOps).flatten = (pre.map SelectEvent.count).sum := by
  induction pre with
  | nil => simp [writtenCount]
  | cons e pre ih =>
    have he := h e (List.mem_cons_self _ _)
    have hpre : ∀ x ∈ pre, x.continues = true := fun x hx => h x (List.mem_cons_of_mem _ hx)
    cases e with
    | ctxDone => simp [SelectEvent.continues] at he
    | closed errp => simp [SelectEvent.continues] at he
    | hup => simp [SelectEvent.continues] at he
    | recv b w f =>
      simp [SelectEvent.chunkOps, SelectEvent.count, writtenCount, ih hpre]

/-- How `copyStdin` ends after rounds that go round again. -/
theorem copyStdin_append (pre : List SelectEvent) (h : ∀ e ∈ pre, e.continues = true)
    (rest : List SelectEvent) :
    (copyStdin (pre ++ rest)).2 = (copyLoop (pre.map SelectEvent.count).sum rest).2
    ∧ (copyStdin (pre ++ rest)).1 =
        [.setHeader "Content-Type" "text/event-stream", .setHeader "Connection" "keep-alive",
         .writeHeader 200, .notifyHup] ++ (pre.map SelectEvent.chunkOps).flatten
          ++ (copyLoop (pre.map SelectEvent.count).sum rest).1
          ++ deferredStop (copyLoop (pre.map SelectEvent.count).sum rest).2 := by
  have := copyLoop_append pre h 0 rest
  simp only [Nat.zero_add] at this
  simp [copyStdin, this]

theorem fullRounds_continue (cs : List (Slice × Option GoError))
    (hflush : ∀ c ∈ cs, c.2 = none ∨ ∃ e, c.2 = some e ∧ errorsIs e .errNotSupported = true) :
    ∀ e ∈ fullRounds cs, e.continues = true := by
  intro e he
  simp only [fullRounds, List.mem_map] at he
  obtain ⟨c, hc, rfl⟩ := he
  rcases hflush c hc with h | ⟨x, h, hx⟩
  · simp [SelectEvent.continues, h]
  · simp [SelectEvent.continues, h, hx]

theorem fullRounds_count (cs : List (Slice × Option GoError)) :
    ((fullRounds cs).map SelectEvent.count).sum = (cs.map (fun c => c.1.len)).sum := by
  induction cs with
  | nil => simp [fullRounds]
  | cons c cs ih =>
    simp only [fullRounds, List.map_cons, List.sum_cons, SelectEvent.count] at ih ⊢
    rw [ih]

theorem fullRounds_writes (cs : List (Slice × Option GoError)) :
    writesOf ((fullRounds cs).map SelectEvent.chunkOps).flatten = cs.map (fun c => c.1.bytes) := by
  induction cs with
  | nil => simp [fullRounds, writesOf]
  | cons c cs ih =>
    simp only [fullRounds, List.map_cons, List.flatten_cons, SelectEvent.chunkOps] at ih ⊢
    rw [writesOf_append, ih]
    simp [writesOf]

/-! ## The claims -/

set_option maxRecDepth 100000

/-- C5: for every finite sequence of chunks delivered on the Stdin channel, each
accepted in full by `Write` and followed by a `Flush` that succeeds or reports
`ErrNotSupported`, then channel closure with stored terminal error `io.EOF`, and
no cancellation or hangup: `copyStdin` writes exactly the chunks' bytes, one
`Write` per chunk in order, returns the sum of the chunk lengths as total, and
returns an error for which `errors.Is(err, io.EOF)` holds, so that `handleIn`
takes and logs the EOF branch with that total. -/
theorem copyStdin_relays_chunks_then_eof
    (cs : List (Slice × Option GoError)) (rest : List SelectEvent) (g : GateAnswers)
    (hflush : ∀ c ∈ cs, c.2 = none ∨ ∃ e, c.2 = some e ∧ errorsIs e .errNotSupported = true)
    (hgate : g.returns = true) :
    ∃ err,
      (copyStdin (fullRounds cs ++ .closed (some .eof) :: rest)).2
        = .returned (cs.map (fun c => c.1.len)).sum (some err)
      ∧ errorsIs err .eof = true
      ∧ writesOf (copyStdin (fullRounds cs ++ .closed (some .eof) :: rest)).1
        = cs.map (fun c => c.1.bytes)
      ∧ (handleIn g none (fullRounds cs ++ .closed (some .eof) :: rest)).2
        = .ended .eof (cs.map (fun c => c.1.len)).sum (some err)
      ∧ Op.logEOF (cs.map (fun c => c.1.len)).sum
        ∈ (handleIn g none (fullRounds cs ++ .closed (some .eof) :: rest)).1 := by
  have hc := fullRounds_continue cs hflush
  obtain ⟨h2, h1⟩ := copyStdin_append (fullRounds cs) hc (.closed (some .eof) :: rest)
  rw [fullRounds_count] at h2 h1
  have hret : (copyStdin (fullRounds cs ++ .closed (some .eof) :: rest)).2
      = .returned (cs.map (fun c => c.1.len)).sum (some (.wrap "reading stdin" .eof)) := by
    rw [h2]; simp [copyLoop]
  have hcl : classify (some (GoError.wrap "reading stdin" .eof)) = .eof := by
    simp [classify, errorsIs]
  refine ⟨.wrap "reading stdin" .eof, hret, by simp [errorsIs], ?_, ?_, ?_⟩
  · rw [h1]
    simp [writesOf_append, fullRounds_writes, copyLoop, deferredStop, writesOf]
  · rw [handleIn_outcome g _ hgate, hret]
    simp [hcl]
  · have := handleIn_logs g _ hgate _ _ hret
    simpa [logFor, hcl] using this

/-- C5, Scenario A: stdin yields "hello\n" (6 bytes) then end-of-input; the
session writes that one 6-byte chunk and ends with EOF and total 6. -/
theorem copyStdin_relays_chunks_then_eof_witness :
    ∃ err,
      (copyStdin [.recv helloChunk ⟨6, none⟩ none, .closed (some .eof)]).2
        = .returned 6 (some err)
      ∧ errorsIs err .eof = true
      ∧ writesOf (copyStdin [.recv helloChunk ⟨6, none⟩ none, .closed (some .eof)]).1
        = [[104, 101, 108, 108, 111, 10]]
      ∧ (handleIn ⟨true, none⟩ none [.recv helloChunk ⟨6, none⟩ none, .closed (some .eof)]).2
        = .ended .eof 6 (some err)
      ∧ Op.logEOF 6
        ∈ (handleIn ⟨true, none⟩ none [.recv helloChunk ⟨6, none⟩ none, .closed (some .eof)]).1 :=
  copyStdin_relays_chunks_then_eof [(helloChunk, none)] [] ⟨true, none⟩ (by simp) (by decide)

/-- C6, as the claim states it, fails: a `Write` error that is `io.EOF` is
classified and logged as EOF, and a `Flush` error wrapping `context.Canceled`
is classified and logged as Canceled; neither reaches the default branch. -/
theorem write_error_wrapping_eof_classified_eof :
    (handleIn ⟨true, none⟩ none [.recv (Slice.ofBytes [104]) ⟨0, some .eof⟩ none]).2
        = .ended .eof 0 (some (.wrap "sending response" .eof))
    ∧ Op.logEOF 0 ∈ (handleIn ⟨true, none⟩ none [.recv (Slice.ofBytes [104]) ⟨0, some .eof⟩ none]).1
    ∧ (handleIn ⟨true, none⟩ none
        [.recv (Slice.ofBytes [104]) ⟨1, none⟩ (some (.wrap "flush" .canceled))]).2
        = .ended .canceled 1 (some (.wrap "flushing response" (.wrap "flush" .canceled)))
    ∧ Op.logEnd 1 ∈ (handleIn ⟨true, none⟩ none
        [.recv (Slice.ofBytes [104]) ⟨1, none⟩ (some (.wrap "flush" .canceled))]).1 := by
  decide

/-- C6, amended: after any rounds that went round again, `handleIn` classifies
by the first of `io.EOF`, `ErrSIGHUP`, `context.Canceled` found in the chain of
the error `copyStdin` returned, and logs that branch. Channel closed with
terminal error EOF gives EOF, a hangup signal gives Hangup, scope cancellation
gives Canceled; a failure of `Write`, or of `Flush` other than
`ErrNotSupported`, with error `e` is classified as `e` itself would be, which
is the transport-error branch exactly when the chain of `e` holds none of the
three sentinels. -/
theorem handleIn_classifies_by_error_chain
    (pre rest : List SelectEvent) (g : GateAnswers)
    (hpre : ∀ e ∈ pre, e.continues = true) (hgate : g.returns = true) :
    (handleIn g none (pre ++ .closed (some .eof) :: rest)).2
        = .ended .eof (pre.map SelectEvent.count).sum (some (.wrap "reading stdin" .eof))
    ∧ Op.logEOF (pre.map SelectEvent.count).sum
        ∈ (handleIn g none (pre ++ .closed (some .eof) :: rest)).1
    ∧ (handleIn g none (pre ++ .hup :: rest)).2
        = .ended .hangup (pre.map SelectEvent.count).sum (some .errSIGHUP)
    ∧ Op.logSIGHUP (pre.map SelectEvent.count).sum ∈ (handleIn g none (pre ++ .hup :: rest)).1
    ∧ (handleIn g none (pre ++ .ctxDone :: rest)).2
        = .ended .canceled (pre.map SelectEvent.count).sum (some .canceled)
    ∧ Op.logEnd (pre.map SelectEvent.count).sum ∈ (handleIn g none (pre ++ .ctxDone :: rest)).1
    ∧ (∀ (b : Slice) (n : Nat) (e : GoError) (f : Option GoError),
        (handleIn g none (pre ++ .recv b ⟨n, some e⟩ f :: rest)).2
          = .ended (classify (some e)) ((pre.map SelectEvent.count).sum + n)
              (some (.wrap "sending response" e))
        ∧ logFor ((pre.map SelectEvent.count).sum + n) (some (.wrap "sending response" e))
          ∈ (handleIn g none (pre ++ .recv b ⟨n, some e⟩ f :: rest)).1)
    ∧ (∀ (b : Slice) (n : Nat) (e : GoError), errorsIs e .errNotSupported = false →
        (handleIn g none (pre ++ .recv b ⟨n, none⟩ (some e) :: rest)).2
          = .ended (classify (some e)) ((pre.map SelectEvent.count).sum + n)
              (some (.wrap "flushing response" e))
        ∧ logFor ((pre.map SelectEvent.count).sum + n) (some (.wrap "flushing response" e))
          ∈ (handleIn g none (pre ++ .recv b ⟨n, none⟩ (some e) :: rest)).1)
    ∧ (∀ (m : String) (n : Nat) (e : GoError),
        (classify (some (.wrap m e)) = .transport ↔
          (errorsIs e .eof = false ∧ errorsIs e .errSIGHUP = false
            ∧ errorsIs e .canceled = false))
        ∧ (classify (some (.wrap m e)) = .transport →
            logFor n (some (.wrap m e)) = .logError n (.wrap m e))) := by
  have key : ∀ (last : SelectEvent) (n : Nat) (err : Option GoError),
      (copyLoop (pre.map SelectEvent.count).sum (last :: rest)).2 = .returned n err →
      (handleIn g none (pre ++ last :: rest)).2 = .ended (classify err) n err
      ∧ logFor n err ∈ (handleIn g none (pre ++ last :: rest)).1 := by
    intro last n err h
    have hret : (copyStdin (pre ++ last :: rest)).2 = .returned n err := by
      rw [(copyStdin_append pre hpre (last :: rest)).1, h]
    refine ⟨?_, handleIn_logs g _ hgate _ _ hret⟩
    rw [handleIn_outcome g _ hgate, hret]
  refine ⟨?_, ?_, ?_, ?_, ?_, ?_, ?_, ?_, ?_⟩
  · have := (key (.closed (some .eof)) _ _ rfl).1
    simpa [classify, errorsIs] using this
  · have := (key (.closed (some .eof)) _ _ rfl).2
    simpa [logFor, classify, errorsIs] using this
  · have := (key .hup _ _ rfl).1
    simpa [classify, errorsIs] using this
  · have := (key .hup _ _ rfl).2
    simpa [logFor, classify, errorsIs] using this
  · have := (key .ctxDone _ _ rfl).1
    simpa [classify, errorsIs, contextCause] using this
  · have := (key .ctxDone _ _ rfl).2
    simpa [logFor, classify, errorsIs, contextCause] using this
  · intro b n e f
    have := key (.recv b ⟨n, some e⟩ f) ((pre.map SelectEvent.count).sum + n)
      (some (.wrap "sending response" e)) (by simp [copyLoop, copyChunk])
    rw [classify_wrap] at this
    exact this
  · intro b n e he
    have := key (.recv b ⟨n, none⟩ (some e)) ((pre.map SelectEvent.count).sum + n)
      (some (.wrap "flushing response" e)) (by simp [copyLoop, copyChunk, he])
    rw [classify_wrap] at this
    exact this
  · intro m n e
    constructor
    · rw [classify_wrap]
      simp only [classify]
      cases errorsIs e .eof <;> cases errorsIs e .errSIGHUP <;> cases errorsIs e .canceled <;> simp
    · intro h
      simp [logFor, h]

/-- C6, amended, at a concrete run: two chunks relayed, then each kind of end. -/
theorem handleIn_classifies_by_error_chain_witness :
    (handleIn ⟨true, none⟩ none
        ([.recv (Slice.ofBytes [104, 105]) ⟨2, none⟩ none,
          .recv (Slice.ofBytes [10]) ⟨1, none⟩ (some .errNotSupported)]
          ++ .closed (some .eof) :: [])).2
      = .ended .eof 3 (some (.wrap "reading stdin" .eof)) :=
  (handleIn_classifies_by_error_chain
    [.recv (Slice.ofBytes [104, 105]) ⟨2, none⟩ none,
     .recv (Slice.ofBytes [10]) ⟨1, none⟩ (some .errNotSupported)] [] ⟨true, none⟩
    (by decide) (by decide)).1

/-- C2: `TryAcquire` fails, `Acquire` fails with `context.Canceled`, stdin is
alive. `handleIn` does not return after the failed `Acquire`: it goes on to call
`copyStdin`, which sets the response headers, and when the select takes a ready
chunk before the cancellation it receives the chunk and writes it to the
client. -/
theorem handleIn_streams_after_failed_acquire :
    handleIn ⟨false, some (some .canceled)⟩ none
      [.recv (Slice.ofBytes [104, 105]) ⟨2, none⟩ none, .ctxDone]
    = ([.tryAcquire false, .logWaiting, .acquire (some .canceled), .logErrWaiting .canceled,
        .cancel, .loadStdinErr none, .logGrabbed,
        .setHeader "Content-Type" "text/event-stream", .setHeader "Connection" "keep-alive",
        .writeHeader 200, .notifyHup,
        .recvChunk (Slice.ofBytes [104, 105]), .write [104, 105] 2,
        .returnSlice (Slice.ofBytes [104, 105]), .flush,
        .stopHup, .logEnd 2, .release, .cancel],
       .ended .canceled 2 (some .canceled)) := by
  decide

/-- C3, as the claim states it, fails: with `StdinErr` already set to `io.EOF`
the run is rejected, but it has first executed `StdinSem.TryAcquire(1)` and
taken the permit (which it gives back on return); in the process, the permit
count is 1 after that step, before the rejection. -/
theorem rejected_run_acquires_first :
    handleIn ⟨true, none⟩ (some .eof) []
      = ([.tryAcquire true, .loadStdinErr (some .eof), .logRefusing .eof, .release, .cancel],
         .rejected)
    ∧ acquiredCount (handleIn ⟨true, none⟩ (some .eof) []).1 = 1
    ∧ (run Sys.init [.poolGet none, .read ⟨[], some .eof⟩, .afterSend, .closeStdin,
          .connect]).map (fun s => (s.stdinErr, s.sem.cur)) = some (some .eof, 0)
    ∧ (run Sys.init [.poolGet none, .read ⟨[], some .eof⟩, .afterSend, .closeStdin,
          .connect, .tryAcquire 0]).map (fun s => (pcOf s 0, s.sem.cur))
        = some (some .body, 1) := by
  decide

/-- C3, amended: for every `handleIn` run that starts after `StdinErr` has been
set and whose gate call returns, the run is rejected without any part of
`copyStdin` being executed; its first operation is `StdinSem.TryAcquire(1)`
(followed by `Acquire` when that fails), so the gate is used before the
rejection; and when the run got the permit it releases exactly that one permit
on return, leaving the permit count as it found it. -/
theorem rejected_after_gate (g : GateAnswers) (e : GoError) (evs : List SelectEvent)
    (hgate : g.returns = true) :
    (handleIn g (some e) evs).2 = .rejected
    ∧ (∀ op ∈ (handleIn g (some e) evs).1, op.isStreaming = false)
    ∧ (handleIn g (some e) evs).1.head? = some (.tryAcquire g.tryOk)
    ∧ (g.tryOk = false → Op.acquire (g.acquire.getD none) ∈ (handleIn g (some e) evs).1)
    ∧ Op.loadStdinErr (some e) ∈ (handleIn g (some e) evs).1
    ∧ (g.acquired = true →
        acquiredCount (handleIn g (some e) evs).1 = 1
        ∧ releasedCount (handleIn g (some e) evs).1 = 1) := by
  obtain ⟨tryOk, acq⟩ := g
  cases tryOk with
  | true =>
    simp [handleIn, handleInBody, Op.isStreaming, acquiredCount, releasedCount]
  | false =>
    cases acq with
    | none => simp [GateAnswers.returns] at hgate
    | some a =>
      cases a with
      | none =>
        simp [handleIn, handleInBody, Op.isStreaming, acquiredCount, releasedCount]
      | some x =>
        simp [handleIn, handleInBody, Op.isStreaming, acquiredCount, releasedCount,
          GateAnswers.acquired]

/-- C3, amended, at a concrete run: `TryAcquire` fails, `Acquire` succeeds,
`StdinErr` holds `io.EOF`. -/
theorem rejected_after_gate_witness :
    (handleIn ⟨false, some none⟩ (some .eof) []).2 = .rejected
    ∧ acquiredCount (handleIn ⟨false, some none⟩ (some .eof) []).1 = 1
    ∧ releasedCount (handleIn ⟨false, some none⟩ (some .eof) []).1 = 1 :=
  ⟨(rejected_after_gate ⟨false, some none⟩ .eof [] (by decide)).1,
   (rejected_after_gate ⟨false, some none⟩ .eof [] (by decide)).2.2.2.2.2 (by decide)⟩

/-- C1: session 0 takes the permit and enters `copyStdin`; session 1 fails
`TryAcquire`, blocks in `Acquire`, and its request context is canceled. `Acquire`
returns the error, `handleIn` falls through, and session 1 enters `copyStdin`
too: two sessions are inside `copyStdin`. When session 1 then leaves, its
deferred `Release` gives back the permit session 0 holds, so a third session
passes `TryAcquire` and streams with a live context beside session 0. -/
theorem two_sessions_inside_copyStdin :
    (run Sys.init [.connect, .connect, .tryAcquire 0, .loadStdinErr 0, .tryAcquire 1,
        .acquire 1, .cancelRequest 1, .acquireCanceled 1, .loadStdinErr 1]).map
      (fun s => (streamingCount s, pcOf s 0, pcOf s 1, s.sem.cur))
      = some (2, some .streaming, some .streaming, 1)
    ∧ (run Sys.init [.connect, .connect, .tryAcquire 0, .loadStdinErr 0, .tryAcquire 1,
        .acquire 1, .cancelRequest 1, .acquireCanceled 1, .loadStdinErr 1,
        .select 1 .ctxDone, .leave 1, .connect, .tryAcquire 2, .loadStdinErr 2]).map
      (fun s => (streamingCount s, pcOf s 0, pcOf s 2, s.sessions.map (fun t => t.ctx.done)))
      = some (2, some .streaming, some .streaming, [false, true, false]) := by
  decide

/-- C4: a `handleIn` run whose `Acquire` fails with `context.Canceled` acquires
no permit and still calls `StdinSem.Release(1)` once. In the process, with
session 0 holding the permit and streaming, the failed session 1 releases it:
the held count drops to 0 while session 0 has acquired once and not released.
If session 0 has already released, the extra `Release` drives the counter to
-1 and panics. -/
theorem failed_acquire_releases_unheld_permit :
    acquiredCount (handleIn ⟨false, some (some .canceled)⟩ none [.ctxDone]).1 = 0
    ∧ releasedCount (handleIn ⟨false, some (some .canceled)⟩ none [.ctxDone]).1 = 1
    ∧ (run Sys.init [.connect, .connect, .tryAcquire 0, .loadStdinErr 0, .tryAcquire 1,
        .acquire 1, .cancelRequest 1, .acquireCanceled 1, .loadStdinErr 1,
        .select 1 .ctxDone, .leave 1]).map
      (fun s => (s.sem.cur, pcOf s 0, acquiredCount (opsOf s 0), releasedCount (opsOf s 0),
                 acquiredCount (opsOf s 1), releasedCount (opsOf s 1)))
      = some (0, some .streaming, 1, 0, 0, 1)
    ∧ (run Sys.init [.connect, .connect, .tryAcquire 0, .loadStdinErr 0, .tryAcquire 1,
        .acquire 1, .cancelRequest 1, .acquireCanceled 1, .cancelRequest 0,
        .select 0 .ctxDone, .leave 0, .loadStdinErr 1, .select 1 .ctxDone, .leave 1]).map
      (fun s => (s.sem.cur, decide (Op.panicRelease ∈ opsOf s 1)))
      = some (-1, true) := by
  decide

theorem handleInBody_last (w : Bool) (stdinErr : Option GoError) (evs : List SelectEvent)
    (h : (handleInBody w stdinErr evs).2 ≠ .stuckInCopy) :
    (handleInBody w stdinErr evs).1.getLast? = some .cancel
    ∧ (handleInBody w stdinErr evs).1 ≠ [] := by
  cases stdinErr with
  | some e => simp [handleInBody]
  | none =>
    cases hc : (copyStdin evs).2 with
    | returned n err =>
      simp only [handleInBody, hc]
      constructor
      · rw [List.getLast?_append]; simp
      · simp
    | panicked n =>
      simp only [handleInBody, hc]
      constructor
      · rw [List.getLast?_append]; simp
      · simp
    | blocked n => simp [handleInBody, hc] at h

/-- Every `handleIn` run that returns ends with the deferred `Cancel(ctx)`. -/
theorem handleIn_last (g : GateAnswers) (stdinErr : Option GoError) (evs : List SelectEvent)
    (h1 : (handleIn g stdinErr evs).2 ≠ .stuckInAcquire)
    (h2 : (handleIn g stdinErr evs).2 ≠ .stuckInCopy) :
    (handleIn g stdinErr evs).1.getLast? = some .cancel := by
  obtain ⟨tryOk, acq⟩ := g
  cases tryOk with
  | true =>
    simp only [handleIn, if_true] at h2 ⊢
    obtain ⟨hl, hne⟩ := handleInBody_last false stdinErr evs h2
    rw [List.getLast?_append, hl]; rfl
  | false =>
    cases acq with
    | none => simp [handleIn] at h1
    | some a =>
      cases a with
      | none =>
        simp only [handleIn, Bool.false_eq_true, if_false] at h2 ⊢
        obtain ⟨hl, hne⟩ := handleInBody_last true stdinErr evs h2
        rw [List.getLast?_append, hl]; rfl
      | some e =>
        simp only [handleIn, Bool.false_eq_true, if_false] at h2 ⊢
        obtain ⟨hl, hne⟩ := handleInBody_last true stdinErr evs h2
        rw [List.getLast?_append, hl]; rfl

theorem getElem?_lt {α : Type} (l : List α) (i : Nat) (a : α) (h : l[i]? = some a) :
    i < l.length := by
  rcases Nat.lt_or_ge i l.length with h1 | h1
  · exact h1
  · simp [List.getElem?_eq_none h1] at h

theorem getElem?_set_same (l : List Session) (i : Nat) (t u : Session) (h : l[i]? = some t) :
    (l.set i u)[i]? = some u := by
  have hlt := getElem?_lt l i t h
  simp [hlt]

theorem step_outboundDone (s : Sys) (i : Nat) (t : Session) (c : CopyResult)
    (hi : s.sessions[i]? = some t) (hout : t.outRunning = true) :
    step s (.outboundDone i c) = some { s with
      sessions := s.sessions.set i
        ({ t with ctx := (bidirOutLeg t.ctx c).2, outRunning := false }) } := by
  simp [step, hi, hout]

theorem step_select_ctxDone (s : Sys) (i : Nat) (t : Session)
    (hi : s.sessions[i]? = some t) (hpc : t.pc = .streaming) (hd : t.ctx.done = true) :
    step s (.select i .ctxDone) = some { s with
      sessions := s.sessions.set i
        ({ t with pc := .leaving (.ended .canceled t.tot (some .canceled)), hup := 0,
                  ops := t.ops ++ [.stopHup, .logEnd t.tot] }) } := by
  simp [step, hi, sessionStep, hpc, selectStep, hd, endOfCopy, contextCause, classify, errorsIs,
    logFor]

theorem step_select_hup (s : Sys) (i : Nat) (t : Session)
    (hi : s.sessions[i]? = some t) (hpc : t.pc = .streaming) (hh : 0 < t.hup) :
    step s (.select i .hup) = some { s with
      sessions := s.sessions.set i
        ({ t with pc := .leaving (.ended .hangup t.tot (some .errSIGHUP)), hup := 0,
                  ops := t.ops ++ [.stopHup, .logSIGHUP t.tot] }) } := by
  simp [step, hi, sessionStep, hpc, selectStep, hh, endOfCopy, classify, errorsIs, logFor]

theorem step_select_closed (s : Sys) (i : Nat) (t : Session) (e : GoError)
    (hi : s.sessions[i]? = some t) (hpc : t.pc = .streaming)
    (hc : s.stdinClosed = true) (he : s.stdinErr = some e) :
    step s (.select i .closed) = some { s with
      sessions := s.sessions.set i
        ({ t with pc := .leaving (.ended (classify (some e)) t.tot
                          (some (.wrap "reading stdin" e))), hup := 0,
                  ops := t.ops ++ [.stopHup, logFor t.tot (some (.wrap "reading stdin" e))] }) } := by
  simp [step, hi, sessionStep, hpc, selectStep, hc, he, endOfCopy, classify_wrap]

theorem step_leave (s : Sys) (i : Nat) (t : Session) (o : Outcome)
    (hi : s.sessions[i]? = some t) (hpc : t.pc = .leaving o) :
    step s (.leave i) = some { s with
      sem := s.sem.Release.1,
      sessions := wake s.sem.Release.2.1 (s.sessions.set i
        ({ t with pc := .done o, ctx := Cancel t.ctx,
                  ops := t.ops ++ [.release] ++
                    (if s.sem.Release.2.2 then [.panicRelease] else []) ++ [.cancel] })) } := by
  simp [step, hi, sessionStep, hpc]

theorem step_tryAcquire_free (s : Sys) (i : Nat) (t : Session)
    (hi : s.sessions[i]? = some t) (hpc : t.pc = .start)
    (hfree : s.sem.size - s.sem.cur ≥ 1) (hw : s.sem.waiters = []) :
    step s (.tryAcquire i) = some { s with
      sem := { s.sem with cur := s.sem.cur + 1 },
      sessions := s.sessions.set i
        ({ t with pc := .body, ops := t.ops ++ [.tryAcquire true] }) } := by
  simp [step, hi, sessionStep, hpc, Weighted.TryAcquire, hfree, hw]

theorem step_loadStdinErr_alive (s : Sys) (i : Nat) (t : Session)
    (hi : s.sessions[i]? = some t) (hpc : t.pc = .body) (he : s.stdinErr = none) :
    step s (.loadStdinErr i) = some { s with
      sessions := s.sessions.set i
        ({ t with pc := .streaming, tot := 0, hup := 0,
                  ops := t.ops ++ [.loadStdinErr none] ++
                    (if t.waited then [.logGrabbed] else []) ++
                    [.setHeader "Content-Type" "text/event-stream",
                     .setHeader "Connection" "keep-alive",
                     .writeHeader 200, .notifyHup] }) } := by
  simp [step, hi, sessionStep, hpc, he]

theorem selectStep_frame (s s1 : Sys) (i : Nat) (t : Session) (p : Pick)
    (h : selectStep s i t p = some s1) :
    s1.stdinErr = s.stdinErr ∧ s1.stdinClosed = s.stdinClosed ∧ s1.sem = s.sem
    ∧ (s1.bpc = s.bpc ∨ ∃ b e, s.bpc = .sending b e ∧ s1.bpc = .afterSend e) := by
  cases p with
  | ctxDone =>
    simp only [selectStep] at h
    split at h
    · cases h; simp
    · cases h
  | recv w f =>
    simp only [selectStep] at h
    split at h
    · next b e hb => cases h; exact ⟨rfl, rfl, rfl, Or.inr ⟨b, e, hb, rfl⟩⟩
    · cases h
  | closed =>
    simp only [selectStep] at h
    split at h
    · cases h; simp
    · cases h
  | hup =>
    simp only [selectStep] at h
    split at h
    · cases h; simp
    · cases h

theorem sessionStep_frame (s s1 : Sys) (i : Nat) (t : Session) (a : Action)
    (h : sessionStep s i t a = some s1) :
    s1.stdinErr = s.stdinErr ∧ s1.stdinClosed = s.stdinClosed
    ∧ (s1.bpc = s.bpc ∨ ∃ b e, s.bpc = .sending b e ∧ s1.bpc = .afterSend e) := by
  cases a with
  | select j p =>
    simp only [sessionStep] at h
    split at h
    · have := selectStep_frame s s1 i t p h
      exact ⟨this.1, this.2.1, this.2.2.2⟩
    · cases h
  | tryAcquire j =>
    simp only [sessionStep] at h
    split at h
    · split at h <;> (cases h; simp)
    · cases h
  | acquire j =>
    simp only [sessionStep] at h
    split at h
    · split at h <;> (cases h; simp)
    · cases h
  | acquireReturn j =>
    simp only [sessionStep] at h
    split at h
    · cases h; simp
    · cases h
  | acquireCanceled j =>
    simp only [sessionStep] at h
    split at h
    · split at h
      · cases h; simp
      · cases h
    · cases h
  | loadStdinErr j =>
    simp only [sessionStep] at h
    split at h
    · split at h <;> (cases h; simp)
    · cases h
  | leave j =>
    simp only [sessionStep] at h
    split at h
    · cases h; simp
    · cases h
  | connect => simp [sessionStep] at h
  | connectBidir => simp [sessionStep] at h
  | cancelRequest j => simp [sessionStep] at h
  | outboundDone j c => simp [sessionStep] at h
  | sighup => simp [sessionStep] at h
  | poolGet pick => simp [sessionStep] at h
  | read r => simp [sessionStep] at h
  | afterSend => simp [sessionStep] at h
  | closeStdin => simp [sessionStep] at h

/-- What a step can do to the state shared with the reader: nothing beyond
moving the reader among its running program points, or the store of the read
error, or the deferred close. -/
theorem step_shared (s s1 : Sys) (a : Action) (h : step s a = some s1) :
    (s1.stdinErr = s.stdinErr ∧ s1.stdinClosed = s.stdinClosed
      ∧ (s1.bpc = s.bpc ∨ (s.bpc.running = true ∧ s1.bpc.running = true)))
    ∨ (∃ e, s.bpc = .afterSend (some e) ∧ s1.bpc = .closing e ∧ s1.stdinErr = some e
        ∧ s1.stdinClosed = s.stdinClosed)
    ∨ (∃ e, s.bpc = .closing e ∧ s1.bpc = .stopped e ∧ s1.stdinErr = s.stdinErr
        ∧ s1.stdinClosed = true) := by
  have sess : ∀ i, (match s.sessions[i]? with
      | some t => sessionStep s i t a
      | none => none) = some s1 →
      (s1.stdinErr = s.stdinErr ∧ s1.stdinClosed = s.stdinClosed
        ∧ (s1.bpc = s.bpc ∨ (s.bpc.running = true ∧ s1.bpc.running = true))) := by
    intro i hi
    split at hi
    · next t ht =>
      obtain ⟨h1, h2, h3⟩ := sessionStep_frame s s1 i t a hi
      refine ⟨h1, h2, ?_⟩
      rcases h3 with h3 | ⟨b, e, hb, he⟩
      · exact Or.inl h3
      · exact Or.inr (by rw [hb, he]; exact ⟨rfl, rfl⟩)
    · cases hi
  cases a with
  | connect => simp only [step] at h; cases h; exact Or.inl ⟨rfl, rfl, Or.inl rfl⟩
  | connectBidir => simp only [step] at h; cases h; exact Or.inl ⟨rfl, rfl, Or.inl rfl⟩
  | sighup =>
    simp only [step] at h
    split at h
    · cases h; exact Or.inl ⟨rfl, rfl, Or.inl rfl⟩
    · cases h
  | cancelRequest i =>
    simp only [step] at h
    split at h
    · cases h; exact Or.inl ⟨rfl, rfl, Or.inl rfl⟩
    · cases h
  | outboundDone i c =>
    simp only [step] at h
    split at h
    · split at h
      · cases h; exact Or.inl ⟨rfl, rfl, Or.inl rfl⟩
      · cases h
    · cases h
  | poolGet pick =>
    simp only [step, readerStep] at h
    split at h
    · next hb => cases h; exact Or.inl ⟨rfl, rfl, Or.inr (by rw [hb]; exact ⟨rfl, rfl⟩)⟩
    · cases h
  | read r =>
    simp only [step, readerStep] at h
    split at h
    · next buf hb =>
      split at h
      · split at h
        · split at h
          · cases h; exact Or.inl ⟨rfl, rfl, Or.inr (by rw [hb]; exact ⟨rfl, rfl⟩)⟩
          · cases h
        · cases h; exact Or.inl ⟨rfl, rfl, Or.inr (by rw [hb]; exact ⟨rfl, rfl⟩)⟩
      · cases h
    · cases h
  | afterSend =>
    simp only [step, readerStep] at h
    split at h
    · next e hb => cases h; exact Or.inr (Or.inl ⟨e, hb, rfl, rfl, rfl⟩)
    · next hb => cases h; exact Or.inl ⟨rfl, rfl, Or.inr (by rw [hb]; exact ⟨rfl, rfl⟩)⟩
    · cases h
  | closeStdin =>
    simp only [step, readerStep] at h
    split at h
    · next e hb => cases h; exact Or.inr (Or.inr ⟨e, hb, rfl, rfl, rfl⟩)
    · cases h
  | tryAcquire i => exact Or.inl (sess i (by simpa only [step] using h))
  | acquire i => exact Or.inl (sess i (by simpa only [step] using h))
  | acquireReturn i => exact Or.inl (sess i (by simpa only [step] using h))
  | acquireCanceled i => exact Or.inl (sess i (by simpa only [step] using h))
  | loadStdinErr i => exact Or.inl (sess i (by simpa only [step] using h))
  | select i p => exact Or.inl (sess i (by simpa only [step] using h))
  | leave i => exact Or.inl (sess i (by simpa only [step] using h))

theorem ReaderInv_running (s : Sys) (h : s.bpc.running = true) :
    ReaderInv s ↔ (s.stdinErr = none ∧ s.stdinClosed = false) := by
  unfold ReaderInv
  cases hb : s.bpc <;> simp_all [BPC.running]

theorem step_preserves_ReaderInv (s s1 : Sys) (a : Action) (hinv : ReaderInv s)
    (h : step s a = some s1) : ReaderInv s1 := by
  rcases step_shared s s1 a h with ⟨h1, h2, h3⟩ | ⟨e, hb, hb1, he, hc⟩ | ⟨e, hb, hb1, he, hc⟩
  · rcases h3 with h3 | ⟨hr, hr1⟩
    · unfold ReaderInv at hinv ⊢
      rw [h1, h2, h3]; exact hinv
    · rw [ReaderInv_running s hr] at hinv
      rw [ReaderInv_running s1 hr1, h1, h2]; exact hinv
  · have hr : s.bpc.running = true := by rw [hb]; rfl
    rw [ReaderInv_running s hr] at hinv
    unfold ReaderInv
    rw [hb1]
    exact ⟨he, by rw [hc]; exact hinv.2⟩
  · unfold ReaderInv at hinv ⊢
    rw [hb] at hinv
    rw [hb1]
    exact ⟨by rw [he]; exact hinv.1, hc⟩

theorem run_preserves_ReaderInv (as : List Action) :
    ∀ (s s1 : Sys), ReaderInv s → run s as = some s1 → ReaderInv s1 := by
  induction as with
  | nil => intro s s1 hinv h; simp only [run] at h; cases h; exact hinv
  | cons a as ih =>
    intro s s1 hinv h
    simp only [run] at h
    split at h
    · next s2 h2 => exact ih s2 s1 (step_preserves_ReaderInv s s2 a hinv h2) h
    · cases h

theorem reachable_ReaderInv (s : Sys) (h : Reachable s) : ReaderInv s := by
  obtain ⟨as, has⟩ := h
  exact run_preserves_ReaderInv as Sys.init s ⟨rfl, rfl⟩ has

/-- C8: in every reachable state, if the Stdin channel is closed then `StdinErr`
holds the read error with which the reader ended; the error was stored before
the channel was closed (a step that closes the channel starts from a state
where it is stored) and no step clears or overwrites it once stored. So for
every session inside `copyStdin`, when the channel is closed the closed case of
the select can be taken, `StdinErr.Load()` is non-nil, and `copyStdin` returns
its total with exactly the stored error wrapped as "reading stdin". -/
theorem closed_stdin_has_stored_error (s : Sys) (hr : Reachable s) :
    (s.stdinClosed = true → ∃ e, s.stdinErr = some e ∧ s.bpc = .stopped e)
    ∧ (∀ a s1, step s a = some s1 → s.stdinClosed = false → s1.stdinClosed = true →
        ∃ e, s.stdinErr = some e ∧ s1.stdinErr = some e)
    ∧ (∀ a s1 e, step s a = some s1 → s.stdinErr = some e → s1.stdinErr = some e)
    ∧ (∀ i t, s.sessions[i]? = some t → t.pc = .streaming → s.stdinClosed = true →
        ∃ e s1, s.stdinErr = some e ∧ step s (.select i .closed) = some s1
          ∧ pcOf s1 i = some (.leaving (.ended (classify (some e)) t.tot
              (some (.wrap "reading stdin" e))))) := by
  have hinv := reachable_ReaderInv s hr
  have hclosed : s.stdinClosed = true → ∃ e, s.stdinErr = some e ∧ s.bpc = .stopped e := by
    intro hc
    unfold ReaderInv at hinv
    cases hb : s.bpc <;> rw [hb] at hinv <;> simp_all
  refine ⟨hclosed, ?_, ?_, ?_⟩
  · intro a s1 h hc hc1
    rcases step_shared s s1 a h with ⟨h1, h2, h3⟩ | ⟨e, hb, hb1, he, hc2⟩ | ⟨e, hb, hb1, he, hc2⟩
    · rw [h2, hc] at hc1; cases hc1
    · rw [hc2, hc] at hc1; cases hc1
    · unfold ReaderInv at hinv
      rw [hb] at hinv
      exact ⟨e, hinv.1, by rw [he]; exact hinv.1⟩
  · intro a s1 e h hse
    rcases step_shared s s1 a h with ⟨h1, h2, h3⟩ | ⟨e1, hb, hb1, he, hc2⟩ | ⟨e1, hb, hb1, he, hc2⟩
    · rw [h1]; exact hse
    · have hrun : s.bpc.running = true := by rw [hb]; rfl
      rw [ReaderInv_running s hrun] at hinv
      rw [hinv.1] at hse; cases hse
    · rw [he]; exact hse
  · intro i t hi hpc hc
    obtain ⟨e, he, hb⟩ := hclosed hc
    refine ⟨e, _, he, step_select_closed s i t e hi hpc hc he, ?_⟩
    simp only [pcOf, getElem?_set_same _ _ _ _ hi, Option.map_some']

/-- C8 at a reachable state: stdin has ended with `io.EOF` while a session is
inside `copyStdin`. -/
theorem closed_stdin_has_stored_error_witness :
    run Sys.init [.connect, .tryAcquire 0, .loadStdinErr 0, .poolGet none,
        .read ⟨[], some .eof⟩, .afterSend, .closeStdin] = some eofState
    ∧ (eofState.stdinClosed = true → ∃ e, eofState.stdinErr = some e ∧ eofState.bpc = .stopped e) :=
  ⟨by decide,
   (closed_stdin_has_stored_error eofState
      ⟨[.connect, .tryAcquire 0, .loadStdinErr 0, .poolGet none,
        .read ⟨[], some .eof⟩, .afterSend, .closeStdin], by decide⟩).1⟩

theorem poolGet_spec (pool : List Slice) (pick : Option Nat) (h : Caps pool) :
    (poolGet pool pick).1.len = 1024 ∧ (poolGet pool pick).1.cap = 1024
    ∧ Caps (poolGet pool pick).2 := by
  have hnew : (Slice.make bufLen).cap = 1024 := by simp [Slice.make, Slice.cap, bufLen]
  cases pick with
  | none => exact ⟨hnew, hnew, h⟩
  | some i =>
    simp only [poolGet]
    cases hi : pool[i]? with
    | none => exact ⟨hnew, hnew, h⟩
    | some b =>
      have hb : b.cap = 1024 := h b (List.getElem?_mem hi)
      refine ⟨hb, hb, ?_⟩
      intro x hx
      exact h x (List.mem_of_mem_eraseIdx hx)

theorem puts_caps (sent : List Slice) (hs : Caps sent) (puts : List Slice)
    (hp : ∀ b ∈ puts, b ∈ sent) :
    ∀ pool, Caps pool → Caps (puts.foldl returnStdinSlice pool) := by
  induction puts with
  | nil => intro pool h; exact h
  | cons b bs ih =>
    intro pool h
    simp only [List.foldl_cons]
    apply ih (fun x hx => hp x (List.mem_cons_of_mem _ hx))
    intro x hx
    simp only [returnStdinSlice, List.mem_append, List.mem_singleton] at hx
    rcases hx with hx | hx
    · exact h x hx
    · rw [hx]; exact hs b (hp b (List.mem_cons_self _ _))

theorem fill_spec (buf : Slice) (data : List Byte) (hc : buf.cap = 1024)
    (hd : data.length ≤ 1024) :
    (fill buf data).cap = 1024 ∧ (fill buf data).len = buf.len
    ∧ (fill buf data).arr.take data.length = data := by
  simp only [Slice.cap] at hc
  refine ⟨?_, rfl, ?_⟩
  · simp only [fill, Slice.cap, List.length_take, List.length_append, List.length_drop, hc]
    omega
  · simp only [fill, Slice.cap, hc, List.take_take, Nat.min_eq_left hd]
    rw [List.take_append_of_le_length (Nat.le_refl _), List.take_length]

theorem ReadStdinLoop_spec (turns : List ReadTurn) (h : ∀ t ∈ turns, t.obeysReader) :
    ∀ pool sent, Caps pool → Caps sent →
      (ReadStdinLoop pool sent turns).1.map BOp.view = specReadStdin turns
      ∧ (ReadStdinLoop pool sent turns).2 ≠ .panicked
      ∧ (∀ c, BOp.send c ∈ (ReadStdinLoop pool sent turns).1 → c.cap = 1024 ∧ c.len ≤ c.cap) := by
  induction turns with
  | nil => intro pool sent _ _; simp [ReadStdinLoop, specReadStdin]
  | cons t rest ih =>
    intro pool sent hp hs
    have ht := h t (List.mem_cons_self _ _)
    have hrest : ∀ x ∈ rest, x.obeysReader := fun x hx => h x (List.mem_cons_of_mem _ hx)
    have hp1 : Caps ((t.puts.filterMap (fun i => sent[i]?)).foldl returnStdinSlice pool) := by
      apply puts_caps sent hs _ _ pool hp
      intro b hb
      simp only [List.mem_filterMap] at hb
      obtain ⟨i, _, hi⟩ := hb
      exact List.getElem?_mem hi
    obtain ⟨hlen, hcap, hp2⟩ := poolGet_spec _ t.pick hp1
    have hd : (t.read 1024).data.length ≤ 1024 := ht 1024
    obtain ⟨hfc, hfl, hft⟩ := fill_spec _ (t.read 1024).data hcap hd
    generalize hg : poolGet ((t.puts.filterMap (fun i => sent[i]?)).foldl returnStdinSlice pool)
      t.pick = g at hlen hcap hp2 hfc hfl hft
    have hfl1 : (fill g.1 (t.read 1024).data).len = 1024 := by rw [hfl, hlen]
    have hup : (fill g.1 (t.read 1024).data).upTo (t.read 1024).data.length
        = some ⟨(fill g.1 (t.read 1024).data).arr, (t.read 1024).data.length⟩ := by
      simp [Slice.upTo, hfc, hd]
    rw [ReadStdinLoop]
    simp only [hg, hlen, hfl1, hup, specReadStdin]
    by_cases hz : (t.read 1024).data.length = 0
    · have hnil : (t.read 1024).data = [] := List.length_eq_zero.mp hz
      have hcond : ¬ ((t.read 1024).data.length ≠ 0) := by simpa using hz
      simp only [if_neg hcond, if_pos hnil]
      cases he : (t.read 1024).err with
      | some e =>
        by_cases hx : errorsIs e .eof = true <;> simp [storeAndClose, BOp.view, hx]
      | none =>
        obtain ⟨i1, i2, i3⟩ := ih hrest g.2 sent hp2 hs
        simp only [List.map_append, List.map_cons, List.map_nil, BOp.view, i1, List.append_nil,
          List.cons_append, List.nil_append, true_and]
        refine ⟨i2, ?_⟩
        intro c hc
        simp only [List.mem_cons, reduceCtorEq, false_or] at hc
        exact i3 c hc
    · have hne : (t.read 1024).data ≠ [] := fun hx => hz (by rw [hx]; rfl)
      have hbytes : (Slice.mk (fill g.1 (t.read 1024).data).arr (t.read 1024).data.length).bytes
          = (t.read 1024).data := hft
      have hchunk : (Slice.mk (fill g.1 (t.read 1024).data).arr (t.read 1024).data.length).cap
          = 1024 := hfc
      have hcond : (t.read 1024).data.length ≠ 0 := hz
      simp only [if_pos hcond, if_neg hne]
      cases he : (t.read 1024).err with
      | some e =>
        by_cases hx : errorsIs e .eof = true <;>
          simp [storeAndClose, BOp.view, hx, hbytes, hchunk, hd]
      | none =>
        have hs2 : Caps (sent ++ [Slice.mk (fill g.1 (t.read 1024).data).arr
            (t.read 1024).data.length]) := by
          intro b hb
          simp only [List.mem_append, List.mem_singleton] at hb
          rcases hb with hb | hb
          · exact hs b hb
          · rw [hb]; exact hchunk
        obtain ⟨i1, i2, i3⟩ := ih hrest g.2 _ hp2 hs2
        simp only [List.map_append, List.map_cons, List.map_nil, BOp.view, i1, hbytes,
          List.cons_append, List.nil_append, true_and]
        refine ⟨i2, ?_⟩
        intro c hc
        simp only [List.mem_cons, reduceCtorEq, false_or, BOp.send.injEq] at hc
        rcases hc with hc | hc
        · rw [hc]
          exact ⟨hchunk, by rw [hchunk]; exact hd⟩
        · exact i3 c hc

theorem specReadStdin_mem (turns : List ReadTurn) (v : BView) (hv : v ∈ specReadStdin turns) :
    (∀ n, v = .read n → n = 1024)
    ∧ (∀ bs, v = .publish bs → bs ≠ [] ∧ ∃ t ∈ turns, bs = (t.read 1024).data) := by
  induction turns with
  | nil => simp [specReadStdin] at hv
  | cons t rest ih =>
    simp only [specReadStdin, List.mem_append, List.mem_cons, List.mem_singleton,
      List.not_mem_nil, or_false] at hv
    rcases hv with (hv | hv) | hv
    · subst hv
      exact ⟨fun n hn => (by cases hn; rfl), fun bs hb => (by cases hb)⟩
    · by_cases hd : (t.read 1024).data = []
      · simp [hd] at hv
      · simp only [if_neg hd, List.mem_singleton] at hv
        subst hv
        refine ⟨fun n hn => (by cases hn), fun bs hb => ?_⟩
        cases hb
        exact ⟨hd, t, List.mem_cons_self _ _, rfl⟩
    · cases he : (t.read 1024).err with
      | some e =>
        rw [he] at hv
        simp only [List.mem_append, List.mem_cons, List.mem_singleton, List.not_mem_nil,
          or_false] at hv
        rcases hv with hv | hv | hv
        · by_cases hx : errorsIs e .eof = true
          · simp [hx] at hv
          · simp only [hx, Bool.false_eq_true, if_false, List.mem_singleton] at hv
            subst hv
            exact ⟨fun n hn => (by cases hn), fun bs hb => (by cases hb)⟩
        · subst hv
          exact ⟨fun n hn => (by cases hn), fun bs hb => (by cases hb)⟩
        · subst hv
          exact ⟨fun n hn => (by cases hn), fun bs hb => (by cases hb)⟩
      | none =>
        rw [he] at hv
        obtain ⟨h1, h2⟩ := ih hv
        refine ⟨h1, fun bs hb => ?_⟩
        obtain ⟨hne, t1, ht1, hbs⟩ := h2 bs hb
        exact ⟨hne, t1, List.mem_cons_of_mem _ ht1, hbs⟩

/-- C10: for every sequence of stdin reads that keep the `io.Reader` contract
and every history of slab recycling (which published chunks are handed back to
the pool and when, and which pooled slab each `Get` hands out, or a new one):
the buffer given to every `os.Stdin.Read` has length exactly 1024; every chunk
published on the Stdin channel is non-empty, at most 1024 bytes long and equal
to the bytes a read returned; and the reader's observable behaviour is the one
the specification describes: the bytes of a read are published before its
error is stored, a read of 0 bytes publishes nothing, and the reader never
panics. -/
theorem ReadStdin_reads_full_slabs_and_publishes_what_it_read
    (turns : List ReadTurn) (h : ∀ t ∈ turns, t.obeysReader) :
    (∀ n, BOp.read n ∈ (ReadStdin turns).1 → n = 1024)
    ∧ (∀ c, BOp.send c ∈ (ReadStdin turns).1 →
        c.bytes ≠ [] ∧ c.bytes.length ≤ 1024 ∧ ∃ t ∈ turns, c.bytes = (t.read 1024).data)
    ∧ (ReadStdin turns).1.map BOp.view = specReadStdin turns
    ∧ (ReadStdin turns).2 ≠ .panicked := by
  obtain ⟨h1, h2, h3⟩ := ReadStdinLoop_spec turns h [] []
    (fun b hb => by cases hb) (fun b hb => by cases hb)
  have hmem : ∀ op, op ∈ (ReadStdin turns).1 → op.view ∈ specReadStdin turns := by
    intro op hop
    have : op.view ∈ (ReadStdin turns).1.map BOp.view := List.mem_map_of_mem _ hop
    rw [ReadStdin, h1] at this
    exact this
  refine ⟨?_, ?_, h1, h2⟩
  · intro n hn
    exact (specReadStdin_mem turns _ (hmem _ hn)).1 n rfl
  · intro c hc
    obtain ⟨hne, t, ht, hbs⟩ := (specReadStdin_mem turns _ (hmem _ hc)).2 c.bytes rfl
    refine ⟨hne, ?_, t, ht, hbs⟩
    rw [hbs]
    exact h t ht 1024

/-- C10 for Scenario A: "hello\n" is read into a fresh slab and published, the
slab comes back from the pool with length 6 and is given to the next read at
full length, which returns end-of-input. -/
theorem ReadStdin_reads_full_slabs_and_publishes_what_it_read_witness :
    (ReadStdin helloTurns).1.map BOp.view
      = [.read 1024, .publish [104, 101, 108, 108, 111, 10], .read 1024, .store .eof, .close] :=
  (ReadStdin_reads_full_slabs_and_publishes_what_it_read helloTurns
    (by
      intro t ht
      simp only [helloTurns, List.mem_cons, List.mem_singleton, List.not_mem_nil, or_false] at ht
      rcases ht with rfl | rfl <;> intro n <;> simp [List.length_take])).2.2.1

/-! ### The semaphore never holds more than its one permit -/

theorem notifyLoop_le (ws : List Nat) :
    ∀ cur : Int, cur ≤ 1 → (notifyLoop 1 cur ws).1 ≤ 1 := by
  induction ws with
  | nil => intro cur h; simpa [notifyLoop] using h
  | cons w ws ih =>
    intro cur h
    simp only [notifyLoop]
    split
    · exact h
    · next hc => exact ih (cur + 1) (by omega)

theorem TryAcquire_ok (w : Weighted) (hs : w.size = 1) (hc : w.cur ≤ 1) :
    w.TryAcquire.1.size = 1 ∧ w.TryAcquire.1.cur ≤ 1 := by
  simp only [Weighted.TryAcquire]
  split
  · next h => exact ⟨hs, by simp only; omega⟩
  · exact ⟨hs, hc⟩

theorem AcquireEnter_ok (w : Weighted) (i : Nat) (hs : w.size = 1) (hc : w.cur ≤ 1) :
    (w.AcquireEnter i).1.size = 1 ∧ (w.AcquireEnter i).1.cur ≤ 1 := by
  simp only [Weighted.AcquireEnter]
  split
  · next h => exact ⟨hs, by simp only; omega⟩
  · exact ⟨hs, hc⟩

theorem AcquireCancel_ok (w : Weighted) (i : Nat) (hs : w.size = 1) (hc : w.cur ≤ 1) :
    (w.AcquireCancel i).1.size = 1 ∧ (w.AcquireCancel i).1.cur ≤ 1 := by
  simp only [Weighted.AcquireCancel]
  split
  · refine ⟨hs, ?_⟩
    simp only [hs]
    exact notifyLoop_le _ _ hc
  · exact ⟨hs, hc⟩

theorem Release_ok (w : Weighted) (hs : w.size = 1) (hc : w.cur ≤ 1) :
    w.Release.1.size = 1 ∧ w.Release.1.cur ≤ 1 := by
  simp only [Weighted.Release]
  split
  · exact ⟨hs, by simp only; omega⟩
  · refine ⟨hs, ?_⟩
    simp only [hs]
    exact notifyLoop_le _ _ (by omega)

/-- With nobody queued, `Release` only decrements the counter and wakes nobody. -/
theorem Release_no_waiters (w : Weighted) (hs : w.size = 1) (hw : w.waiters = []) :
    ∃ pf, w.Release = (⟨1, w.cur - 1, []⟩, [], pf) := by
  obtain ⟨size, cur, waiters⟩ := w
  simp only at hs hw
  subst hs hw
  simp only [Weighted.Release]
  split
  · exact ⟨true, rfl⟩
  · exact ⟨false, rfl⟩

theorem sessionStep_sem (s s1 : Sys) (i : Nat) (t : Session) (a : Action)
    (h : sessionStep s i t a = some s1) (hinv : SemInv s) : SemInv s1 := by
  obtain ⟨hs, hc⟩ := hinv
  cases a with
  | select j p =>
    simp only [sessionStep] at h
    split at h
    · have := (selectStep_frame s s1 i t p h).2.2.1
      unfold SemInv
      rw [this]; exact ⟨hs, hc⟩
    · cases h
  | tryAcquire j =>
    simp only [sessionStep] at h
    split at h
    · split at h <;> (cases h; exact TryAcquire_ok _ hs hc)
    · cases h
  | acquire j =>
    simp only [sessionStep] at h
    split at h
    · split at h <;> (cases h; exact AcquireEnter_ok _ _ hs hc)
    · cases h
  | acquireReturn j =>
    simp only [sessionStep] at h
    split at h
    · cases h; exact ⟨hs, hc⟩
    · cases h
  | acquireCanceled j =>
    simp only [sessionStep] at h
    split at h
    · split at h
      · cases h; exact AcquireCancel_ok _ _ hs hc
      · cases h
    · cases h
  | loadStdinErr j =>
    simp only [sessionStep] at h
    split at h
    · split at h <;> (cases h; exact ⟨hs, hc⟩)
    · cases h
  | leave j =>
    simp only [sessionStep] at h
    split at h
    · cases h; exact Release_ok _ hs hc
    · cases h
  | connect => simp [sessionStep] at h
  | connectBidir => simp [sessionStep] at h
  | cancelRequest j => simp [sessionStep] at h
  | outboundDone j c => simp [sessionStep] at h
  | sighup => simp [sessionStep] at h
  | poolGet pick => simp [sessionStep] at h
  | read r => simp [sessionStep] at h
  | afterSend => simp [sessionStep] at h
  | closeStdin => simp [sessionStep] at h

theorem step_preserves_SemInv (s s1 : Sys) (a : Action) (hinv : SemInv s)
    (h : step s a = some s1) : SemInv s1 := by
  have sess : ∀ i, (match s.sessions[i]? with
      | some t => sessionStep s i t a
      | none => none) = some s1 → SemInv s1 := by
    intro i hi
    split at hi
    · next t ht => exact sessionStep_sem s s1 i t a hi hinv
    · cases hi
  cases a with
  | connect => simp only [step] at h; cases h; exact hinv
  | connectBidir => simp only [step] at h; cases h; exact hinv
  | sighup =>
    simp only [step] at h
    split at h
    · cases h; exact hinv
    · cases h
  | cancelRequest i =>
    simp only [step] at h
    split at h
    · cases h; exact hinv
    · cases h
  | outboundDone i c =>
    simp only [step] at h
    split at h
    · split at h
      · cases h; exact hinv
      · cases h
    · cases h
  | poolGet pick =>
    simp only [step, readerStep] at h
    split at h
    · cases h; exact hinv
    · cases h
  | read r =>
    simp only [step, readerStep] at h
    split at h
    · split at h
      · split at h
        · split at h
          · cases h; exact hinv
          · cases h
        · cases h; exact hinv
      · cases h
    · cases h
  | afterSend =>
    simp only [step, readerStep] at h
    split at h
    · cases h; exact hinv
    · cases h; exact hinv
    · cases h
  | closeStdin =>
    simp only [step, readerStep] at h
    split at h
    · cases h; exact hinv
    · cases h
  | tryAcquire i => exact sess i (by simpa only [step] using h)
  | acquire i => exact sess i (by simpa only [step] using h)
  | acquireReturn i => exact sess i (by simpa only [step] using h)
  | acquireCanceled i => exact sess i (by simpa only [step] using h)
  | loadStdinErr i => exact sess i (by simpa only [step] using h)
  | select i p => exact sess i (by simpa only [step] using h)
  | leave i => exact sess i (by simpa only [step] using h)

theorem run_preserves_SemInv (as : List Action) :
    ∀ (s s1 : Sys), SemInv s → run s as = some s1 → SemInv s1 := by
  induction as with
  | nil => intro s s1 hinv h; simp only [run] at h; cases h; exact hinv
  | cons a as ih =>
    intro s s1 hinv h
    simp only [run] at h
    split at h
    · next s2 h2 => exact ih s2 s1 (step_preserves_SemInv s s2 a hinv h2) h
    · cases h

theorem reachable_SemInv (s : Sys) (h : Reachable s) : SemInv s := by
  obtain ⟨as, has⟩ := h
  exact run_preserves_SemInv as Sys.init s ⟨rfl, by decide⟩ has

/-! ### When copyStdin and handleIn return -/

theorem copyChunk_ends (tot : Nat) (b : Slice) (w : WriteResult) (f : Option GoError)
    (h : (SelectEvent.recv b w f).continues = false) :
    ∃ ops n e, copyChunk tot b w f = (ops, n, some e) := by
  obtain ⟨n, werr⟩ := w
  cases werr with
  | some e => exact ⟨_, _, _, rfl⟩
  | none =>
    cases f with
    | none => simp [SelectEvent.continues] at h
    | some e =>
      have he : errorsIs e .errNotSupported = false := by
        simpa [SelectEvent.continues] using h
      exact ⟨[.recvChunk b, .write b.bytes n, .returnSlice b, .flush], tot + n,
        .wrap "flushing response" e, by simp [copyChunk, he]⟩

/-- The loop of `copyStdin` leaves as soon as the select hands it an outcome
other than a chunk that was written and flushed. -/
theorem copyLoop_not_blocked (evs : List SelectEvent) :
    (∃ e ∈ evs, e.continues = false) → ∀ tot n, (copyLoop tot evs).2 ≠ .blocked n := by
  induction evs with
  | nil => intro h; obtain ⟨e, he, _⟩ := h; cases he
  | cons e rest ih =>
    intro h tot n
    cases e with
    | ctxDone => simp [copyLoop]
    | closed errp => cases errp <;> simp [copyLoop]
    | hup => simp [copyLoop]
    | recv b w f =>
      by_cases hc : (SelectEvent.recv b w f).continues = true
      · have hrest : ∃ e ∈ rest, e.continues = false := by
          obtain ⟨x, hx, hxc⟩ := h
          simp only [List.mem_cons] at hx
          rcases hx with hx | hx
          · rw [hx, hc] at hxc; cases hxc
          · exact ⟨x, hx, hxc⟩
        simp only [copyLoop, copyChunk_continues tot b w f hc]
        exact ih hrest _ n
      · have hc2 : (SelectEvent.recv b w f).continues = false := by
          simpa using hc
        obtain ⟨ops, m, x, hx⟩ := copyChunk_ends tot b w f hc2
        simp [copyLoop, hx]

/-- Function `handleIn` returns whenever its gate call returns and either stdin
is already dead or the select eventually hands `copyStdin` an ending outcome. -/
theorem handleIn_returns (g : GateAnswers) (stdinErr : Option GoError)
    (evs : List SelectEvent) (hg : g.returns = true)
    (hev : stdinErr ≠ none ∨ ∃ e ∈ evs, e.continues = false) :
    (handleIn g stdinErr evs).2 ≠ .stuckInAcquire
    ∧ (handleIn g stdinErr evs).2 ≠ .stuckInCopy := by
  cases stdinErr with
  | some x =>
    obtain ⟨tryOk, acq⟩ := g
    cases tryOk with
    | true => simp [handleIn, handleInBody]
    | false =>
      cases acq with
      | none => simp [GateAnswers.returns] at hg
      | some a => cases a <;> simp [handleIn, handleInBody]
  | none =>
    have hex : ∃ e ∈ evs, e.continues = false := by
      rcases hev with h | h
      · exact absurd rfl h
      · exact h
    have hnb := copyLoop_not_blocked evs hex 0
    rw [handleIn_outcome g evs hg]
    cases hc : (copyStdin evs).2 with
    | returned n err => simp
    | panicked n => simp
    | blocked n => exact absurd hc (hnb n)

/-! ### The deferred calls of handleIn in the process -/

theorem wake_map {β : Type} (f : Session → β)
    (hf : ∀ (t : Session) (pc : PC), f { t with pc := pc } = f t) (woken : List Nat) :
    ∀ (ss : List Session) (j : Nat), ((wake woken ss)[j]?).map f = (ss[j]?).map f := by
  induction woken with
  | nil => intro ss j; rfl
  | cons w ws ih =>
    intro ss j
    simp only [wake, List.foldl_cons] at ih ⊢
    rw [ih]
    cases hw : ss[w]? with
    | none => rfl
    | some t =>
      simp only
      by_cases hj : w = j
      · subst hj
        rw [getElem?_set_same ss w t _ hw, hw]
        simp [hf]
      · simp [List.getElem?_set_ne hj]

/-- Leaving `handleIn` runs the deferred `Cancel(ctx)`: whatever the outcome and
whatever the state of the scope, the scope is canceled afterwards and `Cancel`
is the session's last operation. -/
theorem leave_cancels (s : Sys) (i : Nat) (t : Session) (o : Outcome)
    (hi : s.sessions[i]? = some t) (hpc : t.pc = .leaving o) :
    ∃ s3, step s (.leave i) = some s3
      ∧ (s3.sessions[i]?).map (fun x => (x.ctx.done, x.ops.getLast?))
          = some (true, some .cancel) := by
  refine ⟨_, step_leave s i t o hi hpc, ?_⟩
  have hw := wake_map (fun x => (x.ctx.done, x.ops.getLast?)) (fun _ _ => rfl)
    (s.sem.Release).2.1 (s.sessions.set i
      ({ t with pc := .done o, ctx := Cancel t.ctx,
                ops := t.ops ++ [.release] ++
                  (if s.sem.Release.2.2 then [.panicRelease] else []) ++ [.cancel] })) i
  rw [getElem?_set_same _ _ _ _ hi] at hw
  simp only [Option.map_some'] at hw
  rw [hw, List.getLast?_append]
  rfl

/-- A round of the select either keeps the session inside `copyStdin` or takes
it to the deferred calls of `handleIn`; there is no other way out. -/
theorem select_stays_or_leaves (s s1 : Sys) (i : Nat) (t : Session) (p : Pick)
    (hi : s.sessions[i]? = some t) (hpc : t.pc = .streaming)
    (h : step s (.select i p) = some s1) :
    pcOf s1 i = some .streaming ∨ ∃ o, pcOf s1 i = some (.leaving o) := by
  simp only [step, hi, sessionStep, hpc] at h
  cases p with
  | ctxDone =>
    simp only [selectStep] at h
    split at h
    · cases h
      exact Or.inr ⟨_, by simp only [pcOf, getElem?_set_same _ _ _ _ hi, Option.map_some']; rfl⟩
    · cases h
  | recv w f =>
    simp only [selectStep] at h
    split at h
    · cases h
      cases hc : (copyChunk t.tot _ w f).2.2 with
      | none =>
        left
        simp only [pcOf, getElem?_set_same _ _ _ _ hi, Option.map_some', hc, hpc]
      | some e =>
        right
        exact ⟨_, by simp only [pcOf, getElem?_set_same _ _ _ _ hi, Option.map_some', hc]; rfl⟩
    · cases h
  | closed =>
    simp only [selectStep] at h
    split at h
    · cases h
      exact Or.inr ⟨_, by simp only [pcOf, getElem?_set_same _ _ _ _ hi, Option.map_some']; rfl⟩
    · cases h
  | hup =>
    simp only [selectStep] at h
    split at h
    · cases h
      exact Or.inr ⟨_, by simp only [pcOf, getElem?_set_same _ _ _ _ hi, Option.map_some']; rfl⟩
    · cases h

/-- C9: in `HandleBidir` the outbound goroutine runs `handleOut` and then
`Cancel` on the shared scope, whatever `io.Copy` returned (body ended, read
error, write error). In the process, once the outbound leg of a streaming
bidirectional session has finished, the scope is canceled, the cancellation
case of the select can be taken, and `copyStdin` then returns the bytes so far
with `context.Canceled`, which `handleIn` takes as the Canceled branch; as a
function of its select outcomes, `copyStdin` returns on that case the sum of
the byte counts its `Write` calls returned. Symmetrically: `handleIn` returns
whenever its gate call returns and stdin is dead or the select hands over an
ending outcome, and its last operation is then `Cancel`; in the process, every
round of the select keeps the session in `copyStdin` or takes it to the
deferred calls, and these cancel the scope whatever the outcome and whether or
not the scope was still live. -/
theorem bidir_legs_cancel_shared_scope
    (s : Sys) (i : Nat) (t : Session) (c : CopyResult)
    (g : GateAnswers) (stdinErr : Option GoError) (evs pre rest : List SelectEvent)
    (hi : s.sessions[i]? = some t) (hout : t.outRunning = true) (hpc : t.pc = .streaming)
    (hpre : ∀ e ∈ pre, e.continues = true) (hg : g.returns = true)
    (hev : stdinErr ≠ none ∨ ∃ e ∈ evs, e.continues = false) :
    (∀ ctx, bidirOutLeg ctx c = (handleOut c, Cancel ctx) ∧ (bidirOutLeg ctx c).2.done = true)
    ∧ (∃ s1 t1, step s (.outboundDone i c) = some s1 ∧ s1.sessions[i]? = some t1
        ∧ t1.ctx.done = true ∧ t1.pc = .streaming ∧ t1.tot = t.tot
        ∧ ∃ s2, step s1 (.select i .ctxDone) = some s2
          ∧ pcOf s2 i = some (.leaving (.ended .canceled t.tot (some .canceled)))
          ∧ ∃ s3, step s2 (.leave i) = some s3
            ∧ (s3.sessions[i]?).map (fun x => (x.ctx.done, x.ops.getLast?))
                = some (true, some .cancel))
    ∧ ((copyStdin (pre ++ .ctxDone :: rest)).2
          = .returned (pre.map SelectEvent.count).sum (some .canceled)
        ∧ writtenCount (copyStdin (pre ++ .ctxDone :: rest)).1 = (pre.map SelectEvent.count).sum
        ∧ (handleIn g none (pre ++ .ctxDone :: rest)).2
          = .ended .canceled (pre.map SelectEvent.count).sum (some .canceled))
    ∧ ((handleIn g stdinErr evs).2 ≠ .stuckInAcquire
        ∧ (handleIn g stdinErr evs).2 ≠ .stuckInCopy
        ∧ (handleIn g stdinErr evs).1.getLast? = some .cancel)
    ∧ (∀ (p : Pick) (s1 : Sys), step s (.select i p) = some s1 →
        pcOf s1 i = some .streaming ∨ ∃ o, pcOf s1 i = some (.leaving o))
    ∧ (∀ (s1 : Sys) (u : Session) (o : Outcome),
        s1.sessions[i]? = some u → u.pc = .leaving o →
        ∃ s3, step s1 (.leave i) = some s3
          ∧ (s3.sessions[i]?).map (fun x => (x.ctx.done, x.ops.getLast?))
              = some (true, some .cancel)) := by
  refine ⟨fun ctx => ⟨rfl, rfl⟩, ?_, ?_, ?_, ?_, ?_⟩
  · obtain ⟨s1, t1, e1, hi1, hpc1, hd1, htot1⟩ :
        ∃ s1 t1, step s (.outboundDone i c) = some s1 ∧ s1.sessions[i]? = some t1
          ∧ t1.pc = .streaming ∧ t1.ctx.done = true ∧ t1.tot = t.tot :=
      ⟨_, _, step_outboundDone s i t c hi hout, getElem?_set_same _ _ _ _ hi, hpc, rfl, rfl⟩
    obtain ⟨s2, t2, e2, hi2, hpc2⟩ :
        ∃ s2 t2, step s1 (.select i .ctxDone) = some s2 ∧ s2.sessions[i]? = some t2
          ∧ t2.pc = .leaving (.ended .canceled t1.tot (some .canceled)) :=
      ⟨_, _, step_select_ctxDone s1 i t1 hi1 hpc1 hd1, getElem?_set_same _ _ _ _ hi1, rfl⟩
    obtain ⟨s3, e3, h3⟩ := leave_cancels s2 i t2 _ hi2 hpc2
    refine ⟨s1, t1, e1, hi1, hd1, hpc1, htot1, s2, e2, ?_, s3, e3, h3⟩
    simp only [pcOf, hi2, Option.map_some', hpc2, htot1]
  · obtain ⟨h2, h1⟩ := copyStdin_append pre hpre (.ctxDone :: rest)
    have hret : (copyStdin (pre ++ .ctxDone :: rest)).2
        = .returned (pre.map SelectEvent.count).sum (some .canceled) := by rw [h2]; rfl
    refine ⟨hret, ?_, ?_⟩
    · rw [h1]
      simp [writtenCount_append, writtenCount_chunkOps pre hpre, copyLoop, deferredStop,
        writtenCount]
    · rw [handleIn_outcome g _ hg, hret]
      simp [classify, errorsIs]
  · obtain ⟨h1, h2⟩ := handleIn_returns g stdinErr evs hg hev
    exact ⟨h1, h2, handleIn_last g stdinErr evs h1 h2⟩
  · intro p s1 h
    exact select_stays_or_leaves s s1 i t p hi hpc h
  · intro s1 u o hu hpcu
    exact leave_cancels s1 i u o hu hpcu

/-- C9 at concrete runs: a bidirectional session enters `copyStdin`; if its
request body ends after 5 bytes, the inbound leg ends as Canceled; if instead a
SIGHUP ends the inbound leg while the scope is still live, the deferred
`Cancel` of `handleIn` cancels it; and a `handleIn` run whose select takes the
cancellation case returns with `Cancel` as its last operation. -/
theorem bidir_legs_cancel_shared_scope_witness :
    run Sys.init [.connectBidir, .tryAcquire 0, .loadStdinErr 0] = some bidirState
    ∧ (run bidirState [.outboundDone 0 ⟨5, none⟩, .select 0 .ctxDone, .leave 0]).map
        (fun s => (pcOf s 0, s.sessions.map (fun t => t.ctx.done)))
      = some (some (.done (.ended .canceled 0 (some .canceled))), [true])
    ∧ run bidirState [.sighup, .select 0 .hup] = some bidirHupState
    ∧ bidirHupState.sessions.map (fun t => t.ctx.done) = [false]
    ∧ (∃ s3, step bidirHupState (.leave 0) = some s3
        ∧ (s3.sessions[0]?).map (fun x => (x.ctx.done, x.ops.getLast?))
            = some (true, some .cancel))
    ∧ ((handleIn ⟨true, none⟩ none [.ctxDone]).2 ≠ .stuckInAcquire
        ∧ (handleIn ⟨true, none⟩ none [.ctxDone]).2 ≠ .stuckInCopy
        ∧ (handleIn ⟨true, none⟩ none [.ctxDone]).1.getLast? = some .cancel)
    ∧ (copyStdin ([.recv helloChunk ⟨6, none⟩ none] ++ .ctxDone :: [])).2
        = .returned 6 (some .canceled) :=
  ⟨by decide, by decide, by decide, by decide,
   (bidir_legs_cancel_shared_scope bidirState 0
      ⟨.streaming, ⟨false⟩, true, false, 0, 0,
        [.tryAcquire true, .loadStdinErr none,
         .setHeader "Content-Type" "text/event-stream", .setHeader "Connection" "keep-alive",
         .writeHeader 200, .notifyHup]⟩
      ⟨5, none⟩ ⟨true, none⟩ none [.ctxDone] [.recv helloChunk ⟨6, none⟩ none] []
      rfl rfl rfl (by decide) (by decide) (Or.inr ⟨.ctxDone, by simp, rfl⟩)).2.2.2.2.2
      bidirHupState
      ⟨.leaving (.ended .hangup 0 (some .errSIGHUP)), ⟨false⟩, true, false, 0, 0,
        [.tryAcquire true, .loadStdinErr none,
         .setHeader "Content-Type" "text/event-stream", .setHeader "Connection" "keep-alive",
         .writeHeader 200, .notifyHup, .stopHup, .logSIGHUP 0]⟩
      (.ended .hangup 0 (some .errSIGHUP)) rfl rfl,
   (bidir_legs_cancel_shared_scope bidirState 0
      ⟨.streaming, ⟨false⟩, true, false, 0, 0,
        [.tryAcquire true, .loadStdinErr none,
         .setHeader "Content-Type" "text/event-stream", .setHeader "Connection" "keep-alive",
         .writeHeader 200, .notifyHup]⟩
      ⟨5, none⟩ ⟨true, none⟩ none [.ctxDone] [.recv helloChunk ⟨6, none⟩ none] []
      rfl rfl rfl (by decide) (by decide) (Or.inr ⟨.ctxDone, by simp, rfl⟩)).2.2.2.1,
   (bidir_legs_cancel_shared_scope bidirState 0
      ⟨.streaming, ⟨false⟩, true, false, 0, 0,
        [.tryAcquire true, .loadStdinErr none,
         .setHeader "Content-Type" "text/event-stream", .setHeader "Connection" "keep-alive",
         .writeHeader 200, .notifyHup]⟩
      ⟨5, none⟩ ⟨true, none⟩ none [.ctxDone] [.recv helloChunk ⟨6, none⟩ none] []
      rfl rfl rfl (by decide) (by decide) (Or.inr ⟨.ctxDone, by simp, rfl⟩)).2.2.1.1⟩

/-- C7, as the claim states it, fails: session 0 streams "hello\n", session 1 is
queued in `StdinSem.Acquire`, a SIGHUP arrives (StdinErr unset, channel open).
The hangup ends session 0 with total 6 and `ErrSIGHUP`, but the `Release` of
its `handleIn` hands the permit to the queued session 1, so the session that
arrives next fails `TryAcquire` and goes on to wait in `Acquire` instead of
entering `copyStdin`. -/
theorem hangup_with_waiter_hands_permit_over :
    (run Sys.init [.connect, .connect, .tryAcquire 0, .loadStdinErr 0, .poolGet none,
        .read ⟨[104, 101, 108, 108, 111, 10], none⟩, .select 0 (.recv ⟨6, none⟩ none),
        .afterSend, .tryAcquire 1, .acquire 1, .sighup]).map
      (fun s => (pcOf s 0, s.sessions.map (fun t => t.hup), s.stdinErr, s.stdinClosed, s.sem))
      = some (some .streaming, [1, 0], none, false, ⟨1, 1, [1]⟩)
    ∧ (run Sys.init [.connect, .connect, .tryAcquire 0, .loadStdinErr 0, .poolGet none,
        .read ⟨[104, 101, 108, 108, 111, 10], none⟩, .select 0 (.recv ⟨6, none⟩ none),
        .afterSend, .tryAcquire 1, .acquire 1, .sighup,
        .select 0 .hup, .leave 0, .connect, .tryAcquire 2]).map
      (fun s => (s.sessions.map (fun t => t.pc), s.sem, s.stdinErr, s.stdinClosed))
      = some ([.done (.ended .hangup 6 (some .errSIGHUP)), .woken, .acquireCall],
              ⟨1, 1, []⟩, none, false)
    ∧ (run Sys.init [.connect, .connect, .tryAcquire 0, .loadStdinErr 0, .poolGet none,
        .read ⟨[104, 101, 108, 108, 111, 10], none⟩, .select 0 (.recv ⟨6, none⟩ none),
        .afterSend, .tryAcquire 1, .acquire 1, .sighup,
        .select 0 .hup, .leave 0, .connect, .tryAcquire 2, .acquire 2]).map
      (fun s => (pcOf s 2, s.sem))
      = some (some .waiting, ⟨1, 1, [2]⟩) :=
  ⟨by decide, by decide, by decide⟩

/-- C7, amended: when the select of `copyStdin` takes the hangup case after
rounds that went round again, `copyStdin` returns `ErrSIGHUP` with a total
equal to the sum of the byte counts its `Write` calls returned. In every
reachable state of the process in which a session is inside `copyStdin` with a
SIGHUP pending, StdinErr is unset and no session is queued in
`StdinSem.Acquire`: the hangup ends the session as Hangup with its bytes so
far; the reader's state (StdinErr, the channel, its program point, the pool) is
as before, StdinErr unset and the channel open; after `handleIn` has returned
no permit is held and nobody is queued; and a session arriving next passes
`TryAcquire`, passes the `StdinErr` check and enters `copyStdin`. -/
theorem hangup_ends_only_this_session
    (pre rest : List SelectEvent) (s : Sys) (i : Nat) (t : Session)
    (hpre : ∀ e ∈ pre, e.continues = true) (hr : Reachable s)
    (hi : s.sessions[i]? = some t) (hpc : t.pc = .streaming) (hh : 0 < t.hup)
    (hw : s.sem.waiters = []) (herr : s.stdinErr = none) :
    ((copyStdin (pre ++ .hup :: rest)).2
        = .returned (pre.map SelectEvent.count).sum (some .errSIGHUP)
      ∧ writtenCount (copyStdin (pre ++ .hup :: rest)).1 = (pre.map SelectEvent.count).sum)
    ∧ ∃ s1 s2 s3 s4 s5,
        step s (.select i .hup) = some s1
        ∧ pcOf s1 i = some (.leaving (.ended .hangup t.tot (some .errSIGHUP)))
        ∧ step s1 (.leave i) = some s2
        ∧ pcOf s2 i = some (.done (.ended .hangup t.tot (some .errSIGHUP)))
        ∧ s2.sem = ⟨1, s.sem.cur - 1, []⟩ ∧ s.sem.cur - 1 ≤ 0
        ∧ (s2.stdinErr, s2.stdinClosed, s2.bpc, s2.pool)
            = (s.stdinErr, s.stdinClosed, s.bpc, s.pool)
        ∧ s2.stdinErr = none ∧ s2.stdinClosed = false
        ∧ step s2 .connect = some s3
        ∧ step s3 (.tryAcquire s.sessions.length) = some s4
        ∧ pcOf s4 s.sessions.length = some .body
        ∧ step s4 (.loadStdinErr s.sessions.length) = some s5
        ∧ pcOf s5 s.sessions.length = some .streaming := by
  constructor
  · obtain ⟨h2, h1⟩ := copyStdin_append pre hpre (.hup :: rest)
    refine ⟨by rw [h2]; rfl, ?_⟩
    rw [h1]
    simp [writtenCount_append, writtenCount_chunkOps pre hpre, copyLoop, deferredStop,
      writtenCount]
  · obtain ⟨hsize, hcur⟩ := reachable_SemInv s hr
    have hcl : s.stdinClosed = false := by
      have hinv := reachable_ReaderInv s hr
      unfold ReaderInv at hinv
      cases hb : s.bpc <;> rw [hb] at hinv <;> simp_all
    obtain ⟨s1, t1, e1, hi1, hpc1, hf1, hlen1⟩ :
        ∃ s1 t1, step s (.select i .hup) = some s1 ∧ s1.sessions[i]? = some t1
          ∧ t1.pc = .leaving (.ended .hangup t.tot (some .errSIGHUP))
          ∧ (s1.sem, s1.stdinErr, s1.stdinClosed, s1.bpc, s1.pool)
              = (s.sem, s.stdinErr, s.stdinClosed, s.bpc, s.pool)
          ∧ s1.sessions.length = s.sessions.length :=
      ⟨_, _, step_select_hup s i t hi hpc hh, getElem?_set_same _ _ _ _ hi, rfl, rfl,
        List.length_set _ _ _⟩
    simp only [Prod.mk.injEq] at hf1
    obtain ⟨hsem1, herr1, hcl1, hbpc1, hpool1⟩ := hf1
    obtain ⟨pf, hrel⟩ := Release_no_waiters s1.sem (by rw [hsem1]; exact hsize)
      (by rw [hsem1]; exact hw)
    rw [hsem1] at hrel
    have h2 := step_leave s1 i t1 _ hi1 hpc1
    rw [hsem1, hrel] at h2
    simp only [wake, List.foldl_nil] at h2
    obtain ⟨s2, t2, e2, hi2, hpc2, hf2, hlen2⟩ :
        ∃ s2 t2, step s1 (.leave i) = some s2 ∧ s2.sessions[i]? = some t2
          ∧ t2.pc = .done (.ended .hangup t.tot (some .errSIGHUP))
          ∧ (s2.sem, s2.stdinErr, s2.stdinClosed, s2.bpc, s2.pool)
              = (⟨1, s.sem.cur - 1, []⟩, s1.stdinErr, s1.stdinClosed, s1.bpc, s1.pool)
          ∧ s2.sessions.length = s1.sessions.length :=
      ⟨_, _, h2, getElem?_set_same _ _ _ _ hi1, rfl, rfl, List.length_set _ _ _⟩
    simp only [Prod.mk.injEq] at hf2
    obtain ⟨hsem2, herr2, hcl2, hbpc2, hpool2⟩ := hf2
    have hn2 : s2.sessions.length = s.sessions.length := by rw [hlen2, hlen1]
    have hi3 : (s2.sessions ++ [Session.new (NewContext (some ⟨false⟩)) false])[s.sessions.length]?
        = some (Session.new (NewContext (some ⟨false⟩)) false) := by
      rw [← hn2]; simp
    obtain ⟨s3, e3, hi3', hf3⟩ :
        ∃ s3, step s2 .connect = some s3
          ∧ s3.sessions[s.sessions.length]? = some (Session.new (NewContext (some ⟨false⟩)) false)
          ∧ (s3.sem, s3.stdinErr) = (s2.sem, s2.stdinErr) :=
      ⟨_, rfl, hi3, rfl⟩
    simp only [Prod.mk.injEq] at hf3
    obtain ⟨s4, t4, e4, hi4, hpc4, hf4⟩ :
        ∃ s4 t4, step s3 (.tryAcquire s.sessions.length) = some s4
          ∧ s4.sessions[s.sessions.length]? = some t4 ∧ t4.pc = .body
          ∧ s4.stdinErr = s3.stdinErr :=
      ⟨_, _, step_tryAcquire_free s3 _ _ hi3' rfl
          (by rw [hf3.1, hsem2]; simp only [ge_iff_le]; omega)
          (by rw [hf3.1, hsem2]),
        getElem?_set_same _ _ _ _ hi3', rfl, rfl⟩
    obtain ⟨s5, t5, e5, hi5, hpc5⟩ :
        ∃ s5 t5, step s4 (.loadStdinErr s.sessions.length) = some s5
          ∧ s5.sessions[s.sessions.length]? = some t5 ∧ t5.pc = .streaming :=
      ⟨_, _, step_loadStdinErr_alive s4 _ t4 hi4 hpc4
          (by rw [hf4, hf3.2, herr2, herr1, herr]),
        getElem?_set_same _ _ _ _ hi4, rfl⟩
    refine ⟨s1, s2, s3, s4, s5, e1, ?_, e2, ?_, hsem2, by omega, ?_, ?_, ?_, e3, e4, ?_, e5, ?_⟩
    · simp only [pcOf, hi1, Option.map_some', hpc1]
    · simp only [pcOf, hi2, Option.map_some', hpc2]
    · rw [herr2, hcl2, hbpc2, hpool2, herr1, hcl1, hbpc1, hpool1]
    · rw [herr2, herr1, herr]
    · rw [hcl2, hcl1, hcl]
    · simp only [pcOf, hi4, Option.map_some', hpc4]
    · simp only [pcOf, hi5, Option.map_some', hpc5]

/-- C7, amended, at a concrete run: one session relays "hello\n", a SIGHUP
arrives with nobody queued; the session ends with total 6 and `ErrSIGHUP`, the
permit is free afterwards and the next session enters `copyStdin`. -/
theorem hangup_ends_only_this_session_witness :
    run Sys.init [.connect, .tryAcquire 0, .loadStdinErr 0, .poolGet none,
        .read ⟨[104, 101, 108, 108, 111, 10], none⟩, .select 0 (.recv ⟨6, none⟩ none),
        .afterSend, .sighup] = some hupState
    ∧ (copyStdin ([.recv helloChunk ⟨6, none⟩ none] ++ .hup :: [])).2
        = .returned 6 (some .errSIGHUP)
    ∧ writtenCount (copyStdin ([.recv helloChunk ⟨6, none⟩ none] ++ .hup :: [])).1 = 6
    ∧ (run hupState [.select 0 .hup, .leave 0, .connect, .tryAcquire 1, .loadStdinErr 1]).map
        (fun s => (pcOf s 0, pcOf s 1, s.sem, s.stdinErr, s.stdinClosed))
      = some (some (.done (.ended .hangup 6 (some .errSIGHUP))), some .streaming, ⟨1, 1, []⟩,
              none, false) :=
  ⟨by decide,
   (hangup_ends_only_this_session [.recv helloChunk ⟨6, none⟩ none] [] hupState 0
      ⟨.streaming, ⟨false⟩, false, false, 6, 1,
        [.tryAcquire true, .loadStdinErr none,
         .setHeader "Content-Type" "text/event-stream", .setHeader "Connection" "keep-alive",
         .writeHeader 200, .notifyHup,
         .recvChunk helloChunk, .write [104, 101, 108, 108, 111, 10] 6, .returnSlice helloChunk,
         .flush]⟩
      (by decide)
      ⟨[.connect, .tryAcquire 0, .loadStdinErr 0, .poolGet none,
        .read ⟨[104, 101, 108, 108, 111, 10], none⟩, .select 0 (.recv ⟨6, none⟩ none),
        .afterSend, .sighup], by decide⟩
      rfl rfl (by decide) rfl rfl).1.1,
   (hangup_ends_only_this_session [.recv helloChunk ⟨6, none⟩ none] [] hupState 0
      ⟨.streaming, ⟨false⟩, false, false, 6, 1,
        [.tryAcquire true, .loadStdinErr none,
         .setHeader "Content-Type" "text/event-stream", .setHeader "Connection" "keep-alive",
         .writeHeader 200, .notifyHup,
         .recvChunk helloChunk, .write [104, 101, 108, 108, 111, 10] 6, .returnSlice helloChunk,
         .flush]⟩
      (by decide)
      ⟨[.connect, .tryAcquire 0, .loadStdinErr 0, .poolGet none,
        .read ⟨[104, 101, 108, 108, 111, 10], none⟩, .select 0 (.recv ⟨6, none⟩ none),
        .afterSend, .sighup], by decide⟩
      rfl rfl (by decide) rfl rfl).1.2,
   by decide⟩

end HttpHeaderShell
